import Mathlib

/-
Verification of the rust_lisp tree-walking evaluator (src/src/interpreter.rs).

The interpreter is shallowly embedded: the mutable `Rc<RefCell<Env>>`
environment chain is modelled as an explicit store of frames threaded
through every evaluation step, Rust `Result` values become an explicit
result type, and the non-structural recursion of the evaluator is made
total with a fuel parameter (running out of fuel is a distinct outcome,
never confused with a value or an error).  A Rust panic (out-of-bounds
`Vec` indexing, `unwrap()` on `None`) is modelled as its own outcome.
-/

namespace RustLisp

/-- The runtime value type.  `Value::NIL` in the source is
`Value::List(List::NIL)`, modelled here as `Value.list []`.  `lambda`
mirrors the source `Lambda { closure, argnames, body }` where `closure`
is an environment reference (a frame index into the store), and `body`
is a `Value` that the constructors of the interpreter always build as a
list.  `tailCall` mirrors `Value::TailCall { func, args }`.  Native
functions are identified by name; their behaviour is interpreted by
`apply_native` below. -/
inductive Value where
  | int (n : Int)
  | str (s : String)
  | bool (b : Bool)
  | symbol (s : String)
  | list (elems : List Value)
  | lambda (closure : Nat) (argnames : List String) (body : Value)
  | native (name : String)
  | tailCall (func : Value) (args : List Value)

/-- The empty list sentinel `Value::NIL`. -/
def Value.NIL : Value := .list []

/-- Modelled from the spec: `Value::from_truth` of the absent model.rs —
a boolean atom built from a host boolean. -/
def Value.from_truth (b : Bool) : Value := .bool b

/-- Modelled from the spec: `Value::is_truthy` of the absent model.rs —
"a value is falsy only if it is `Nil` or the boolean-false atom". -/
def Value.is_truthy : Value → Bool
  | .list [] => false
  | .bool false => false
  | _ => true

/-- Modelled from the spec: `Value::as_symbol` of the absent model.rs. -/
def Value.as_symbol : Value → Option String
  | .symbol s => some s
  | _ => none

/-- Modelled from the spec: `Value::as_list` of the absent model.rs. -/
def Value.as_list : Value → Option (List Value)
  | .list l => some l
  | _ => none

/-- Modelled from the spec: `List::car` of the absent model.rs —
"`head` access on a list fails with ImproperListAccess when applied to
`Nil`". -/
def improper_access_msg : String := "Attempted to access car of nil"

/-- Modelled from the spec: `List::car`. -/
def carV : List Value → Option Value
  | [] => none
  | a :: _ => some a

/-- Modelled from the spec: `List::cdr` of the absent model.rs — total,
the rest of the list, `Nil` for `Nil` (the interpreter calls it without
`?`). -/
def cdrV : List Value → List Value
  | [] => []
  | _ :: t => t

mutual
/-- `true` when a value contains no `tailCall` marker anywhere inside
it (lists, lambda bodies and deferred-call payloads included). -/
def Value.noTC : Value → Bool
  | .tailCall _ _ => false
  | .list l => noTCL l
  | .lambda _ _ body => Value.noTC body
  | _ => true

/-- `noTC` on every element of a list. -/
def noTCL : List Value → Bool
  | [] => true
  | a :: as => Value.noTC a && noTCL as
end

/-- One environment frame: an ordered binding map plus an optional
parent frame reference. -/
structure Frame where
  entries : List (String × Value)
  parent : Option Nat

/-- The heap of environment frames; a `Rc<RefCell<Env>>` in the source
is a `Nat` index into `frames`. -/
structure Store where
  frames : List Frame

/-- Modelled from the spec: lookup in one frame's binding map. -/
def lookupEntries : List (String × Value) → String → Option Value
  | [], _ => none
  | (k, v) :: t, s => if k = s then some v else lookupEntries t s

/-- Modelled from the spec: bind/overwrite in one frame's binding map
(`HashMap::insert`). -/
def insertEntry : List (String × Value) → String → Value → List (String × Value)
  | [], s, v => [(s, v)]
  | (k, w) :: t, s, v => if k = s then (s, v) :: t else (k, w) :: insertEntry t s v

/-- Modelled from the spec: `Env::get` of the absent model.rs — chain
search frame → parent → … until a binding is found or the chain is
exhausted.  The chain fuel is the number of frames, which bounds any
acyclic chain. -/
def Store.chainGet : Nat → Store → Nat → String → Option Value
  | 0, _, _, _ => none
  | chainFuel + 1, st, i, s =>
    match st.frames[i]? with
    | none => none
    | some fr =>
      match lookupEntries fr.entries s with
      | some v => some v
      | none =>
        match fr.parent with
        | some p => Store.chainGet chainFuel st p s
        | none => none

/-- Modelled from the spec: `Env::get`. -/
def Store.get (st : Store) (i : Nat) (s : String) : Option Value :=
  Store.chainGet st.frames.length st i s

/-- Modelled from the spec: `Env::define` of the absent model.rs —
unconditional bind/overwrite in the current (innermost) frame. -/
def Store.define (st : Store) (i : Nat) (s : String) (v : Value) : Store :=
  match st.frames[i]? with
  | some fr => ⟨st.frames.set i { fr with entries := insertEntry fr.entries s v }⟩
  | none => st

/-- Modelled from the spec: `Env::set` of the absent model.rs — chain
search for an existing binding, mutate the nearest enclosing frame that
holds the symbol; `none` when no frame in the chain holds it
(UnboundAssignment). -/
def Store.setChain : Nat → Store → Nat → String → Value → Option Store
  | 0, _, _, _, _ => none
  | chainFuel + 1, st, i, s, v =>
    match st.frames[i]? with
    | none => none
    | some fr =>
      match lookupEntries fr.entries s with
      | some _ => some ⟨st.frames.set i { fr with entries := insertEntry fr.entries s v }⟩
      | none =>
        match fr.parent with
        | some p => Store.setChain chainFuel st p s v
        | none => none

/-- Modelled from the spec: `Env::set`. -/
def Store.setVar (st : Store) (i : Nat) (s : String) (v : Value) : Option Store :=
  Store.setChain st.frames.length st i s v

/-- Modelled from the spec: `Env::extend` of the absent model.rs —
"create and return a new empty child frame".  Returns the store with
the new frame appended and the new frame's index. -/
def Store.extend (st : Store) (parent : Nat) : Store × Nat :=
  (⟨st.frames ++ [⟨[], some parent⟩]⟩, st.frames.length)

/-- The outcome of one evaluation step: a value, a `RuntimeError` with
its message, a Rust panic (`crash`), or fuel exhaustion (`timeout`, a
model artefact standing for non-termination). -/
inductive Res (α : Type) where
  | ok (v : α)
  | rerr (msg : String)
  | crash
  | timeout

/-- Sequencing that mirrors the `?` operator: on `ok` continue with the
value and the (possibly mutated) store, otherwise propagate the failure
with the store as it stood. -/
def andThen {α β : Type} (r : Store × Res α) (f : Store → α → Store × Res β) :
    Store × Res β :=
  match r with
  | (st, .ok v) => f st v
  | (st, .rerr m) => (st, .rerr m)
  | (st, .crash) => (st, .crash)
  | (st, .timeout) => (st, .timeout)

/-- Sequencing a pure fallible step (`car`, …) that does not touch the
store: `none` is the ImproperListAccess error. -/
def withCar {β : Type} (st : Store) (r : Option Value) (f : Value → Store × Res β) :
    Store × Res β :=
  match r with
  | some v => f v
  | none => (st, .rerr improper_access_msg)

/-- `value_to_argnames` (interpreter.rs): a list of symbols becomes the
parameter-name list; anything else is a TypeMismatch error. -/
def value_to_argnames : Value → Res (List String)
  | .list l => argnamesLoop l
  | _ => .rerr "Expected list of arg names"
where
  argnamesLoop : List Value → Res (List String)
  | [] => .ok []
  | .symbol s :: rest =>
    match argnamesLoop rest with
    | .ok names => .ok (s :: names)
    | e => e
  | _ :: _ => .rerr "Expected list of arg names, but arg is not a symbol"

/-- Modelled from the spec: the standard library of native primitives
is an external collaborator that pre-populates the root environment;
only integer addition is modelled here.  A native takes the environment
and the already-evaluated argument list. -/
def apply_native (st : Store) (envId : Nat) (name : String) (args : List Value) :
    Store × Res Value :=
  match name, args with
  | "+", [.int a, .int b] => (st, .ok (.int (a + b)))
  | _, _ => (st, .rerr "native: invalid application")

/-- `args.into_iter().collect::<Result<Vec<Value>, RuntimeError>>()` —
fail-fast collection of evaluated arguments, first error wins. -/
def sequenceArgs : List (Except String Value) → Except String (List Value)
  | [] => .ok []
  | .ok v :: rest =>
    match sequenceArgs rest with
    | .ok vs => .ok (v :: vs)
    | .error e => .error e
  | .error e :: _ => .error e

/-- The parameter-binding loop of `call_function` (interpreter.rs lines
314–330).  A `"..."` parameter collects the remaining arguments,
dropping errored ones (`filter_map(|a| a.ok())`), and stops the loop;
a named parameter reads `args[index]` — a `Vec` index that panics
(`crash`) when fewer arguments were supplied — and propagates an
argument's evaluation error with `?`. -/
def bindArgs : Nat → List String → List (Except String Value) → Res (List (String × Value))
  | _, [], _ => .ok []
  | index, argname :: restNames, args =>
    if argname = "..." then
      .ok [("...", Value.list ((args.drop index).filterMap Except.toOption))]
    else
      match args[index]? with
      | none => .crash
      | some (.error e) => .rerr e
      | some (.ok v) =>
        match bindArgs (index + 1) restNames args with
        | .ok entries => .ok ((argname, v) :: entries)
        | e => e

/-- Sequencing a pure fallible step whose failure is already a `Res`
outcome; the store is untouched by the step itself. -/
def withRes {α β : Type} (st : Store) (r : Res α) (f : α → Store × Res β) :
    Store × Res β :=
  match r with
  | .ok v => f v
  | .rerr m => (st, .rerr m)
  | .crash => (st, .crash)
  | .timeout => (st, .timeout)

mutual

/-- `eval_inner` (interpreter.rs lines 55–265).  `found_tail` and
`in_func` are the two per-call context bits; the fuel makes the
non-structural recursion total. -/
def eval_inner : Nat → Store → Nat → Value → Bool → Bool → Store × Res Value
  | 0, st, _, _, _, _ => (st, .timeout)
  | fuel + 1, st, env, expression, found_tail, in_func =>
    match expression with
    -- look up symbol
    | .symbol s =>
      match st.get env s with
      | some v => (st, .ok v)
      | none => (st, .rerr (s ++ " is not defined"))
    -- s-expression (non-NIL list); the head is `list.car()?`, `tl` is `list.cdr()`
    | .list (head :: tl) =>
      match head with
      | .symbol kw =>
        if kw = "define" ∨ kw = "set" then
          withCar st (carV tl) fun symv =>
          match symv.as_symbol with
          | none => (st, .rerr "Symbol required for definition")
          | some name =>
            withCar st (carV (cdrV tl)) fun value_expr =>
            andThen (eval_inner fuel st env value_expr true in_func) fun st1 value =>
            if kw = "define" then
              (st1.define env name value, .ok value)
            else
              match st1.setVar env name value with
              | some st2 => (st2, .ok value)
              | none => (st1, .rerr "Tried to set an unbound symbol")
        else if kw = "defun" then
          withCar st (carV tl) fun symv =>
          match symv.as_symbol with
          | none => (st, .rerr "Function name must by a symbol")
          | some name =>
            withCar st (carV (cdrV tl)) fun argsv =>
            withRes st (value_to_argnames argsv) fun argnames =>
            (st.define env name (.lambda env argnames (.list (cdrV (cdrV tl)))),
             .ok Value.NIL)
        else if kw = "lambda" then
          withCar st (carV tl) fun argsv =>
          withRes st (value_to_argnames argsv) fun argnames =>
          (st, .ok (.lambda env argnames (.list (cdrV tl))))
        else if kw = "quote" then
          withCar st (carV tl) fun v => (st, .ok v)
        else if kw = "let" then
          -- the new child frame is created once, before the declarations
          let ext := st.extend env
          withCar ext.1 (carV tl) fun declarations =>
          match declarations.as_list with
          | none => (ext.1, .rerr "Expected list of declarations for let form")
          | some decls =>
            andThen (let_decls fuel ext.1 ext.2 decls in_func) fun st1 _ =>
            match (Value.list (cdrV tl)).as_list with
            | some bodyClauses =>
              eval_block_inner fuel st1 ext.2 bodyClauses found_tail in_func
            | none => (st1, .rerr "Expected expressions after let-declarations")
        else if kw = "begin" then
          match (Value.list tl).as_list with
          | some clauses => eval_block_inner fuel st env clauses found_tail in_func
          | none => (st, .crash)
        else if kw = "cond" then
          cond_clauses fuel st env tl found_tail in_func
        else if kw = "if" then
          withCar st (carV tl) fun condition =>
          withCar st (carV (cdrV tl)) fun then_expr =>
          let else_expr := carV (cdrV (cdrV tl))
          andThen (eval_inner fuel st env condition true in_func) fun st1 v =>
          if v.is_truthy then
            eval_inner fuel st1 env then_expr found_tail in_func
          else
            match else_expr with
            | some e => eval_inner fuel st1 env e found_tail in_func
            | none => (st1, .ok Value.NIL)
        else if kw = "and" then
          withCar st (carV tl) fun a =>
          withCar st (carV (cdrV tl)) fun b =>
          andThen (eval_inner fuel st env a true in_func) fun st1 va =>
          if va.is_truthy then
            andThen (eval_inner fuel st1 env b true in_func) fun st2 vb =>
            (st2, .ok (Value.from_truth vb.is_truthy))
          else (st1, .ok (Value.from_truth false))
        else if kw = "or" then
          withCar st (carV tl) fun a =>
          withCar st (carV (cdrV tl)) fun b =>
          andThen (eval_inner fuel st env a true in_func) fun st1 va =>
          if va.is_truthy then (st1, .ok (Value.from_truth true))
          else
            andThen (eval_inner fuel st1 env b true in_func) fun st2 vb =>
            (st2, .ok (Value.from_truth vb.is_truthy))
        else
          call_expr fuel st env head tl found_tail in_func
      | _ => call_expr fuel st env head tl found_tail in_func
    -- plain value (atoms, the empty list, closures, …) is returned as-is
    | _ => (st, .ok expression)
termination_by structural fuel => fuel

/-- `eval_block_inner` (interpreter.rs lines 18–46): every expression
but the last is evaluated non-tail for effect, the last inherits the
block's context; an empty block is the EmptyBody error. -/
def eval_block_inner : Nat → Store → Nat → List Value → Bool → Bool → Store × Res Value
  | 0, st, _, _, _, _ => (st, .timeout)
  | fuel + 1, st, env, clauses, found_tail, in_func =>
    match clauses with
    | [] => (st, .rerr "Unrecognized expression")
    | [last] => eval_inner fuel st env last found_tail in_func
    | e :: rest =>
      andThen (eval_inner fuel st env e true in_func) fun st1 _ =>
      eval_block_inner fuel st1 env rest found_tail in_func
termination_by structural fuel => fuel

/-- The operand iterator of the call rule (interpreter.rs lines
235–238): each operand is evaluated left-to-right, non-tail, and its
individual `Result` is kept; a crash or fuel exhaustion aborts. -/
def eval_args : Nat → Store → Nat → List Value → Bool → Store × Res (List (Except String Value))
  | 0, st, _, _, _ => (st, .timeout)
  | fuel + 1, st, env, exprs, in_func =>
    match exprs with
    | [] => (st, .ok [])
    | e :: rest =>
      match eval_inner fuel st env e true in_func with
      | (st1, .ok v) =>
        andThen (eval_args fuel st1 env rest in_func) fun st2 l =>
        (st2, .ok (Except.ok v :: l))
      | (st1, .rerr m) =>
        andThen (eval_args fuel st1 env rest in_func) fun st2 l =>
        (st2, .ok (Except.error m :: l))
      | (st1, .crash) => (st1, .crash)
      | (st1, .timeout) => (st1, .timeout)
termination_by structural fuel => fuel

/-- The declaration loop of the `let` form (interpreter.rs lines
135–153): each declaration's expression is evaluated in the (single)
new frame and its name is defined there before the next declaration. -/
def let_decls : Nat → Store → Nat → List Value → Bool → Store × Res Unit
  | 0, st, _, _, _ => (st, .timeout)
  | fuel + 1, st, letEnv, decls, in_func =>
    match decls with
    | [] => (st, .ok ())
    | decl :: rest =>
      match decl.as_list with
      | none => (st, .rerr "Expected declaration clause")
      | some declCons =>
        withCar st (carV declCons) fun symv =>
        match symv.as_symbol with
        | none => (st, .rerr "Expected symbol for let declaration")
        | some name =>
          withCar st (carV (cdrV declCons)) fun expr =>
          andThen (eval_inner fuel st letEnv expr true in_func) fun st1 result =>
          let_decls fuel (st1.define letEnv name result) letEnv rest in_func
termination_by structural fuel => fuel

/-- The clause loop of the `cond` form (interpreter.rs lines 181–192).
Both the condition and the `then` expression are extracted from the
clause (with `car`, which can fail) before the condition is
evaluated. -/
def cond_clauses : Nat → Store → Nat → List Value → Bool → Bool → Store × Res Value
  | 0, st, _, _, _, _ => (st, .timeout)
  | fuel + 1, st, env, clauses, found_tail, in_func =>
    match clauses with
    | [] => (st, .ok Value.NIL)
    | clause :: rest =>
      match clause.as_list with
      | none => (st, .rerr "Expected conditional clause")
      | some cl =>
        withCar st (carV cl) fun condition =>
        withCar st (carV (cdrV cl)) fun then_expr =>
        andThen (eval_inner fuel st env condition true in_func) fun st1 v =>
        if v.is_truthy then eval_inner fuel st1 env then_expr found_tail in_func
        else cond_clauses fuel st1 env rest found_tail in_func
termination_by structural fuel => fuel

/-- The function-call rule (interpreter.rs lines 233–258): evaluate the
operator, then the operands; inside a function body with no tail found
yet, return a deferred `tailCall` whose argument list drops errored
operands (`filter_map(|a| a.ok())`); otherwise invoke at once and run
the trampoline on the result. -/
def call_expr : Nat → Store → Nat → Value → List Value → Bool → Bool → Store × Res Value
  | 0, st, _, _, _, _, _ => (st, .timeout)
  | fuel + 1, st, env, head, argExprs, found_tail, in_func =>
    andThen (eval_inner fuel st env head true in_func) fun st1 func =>
    andThen (eval_args fuel st1 env argExprs in_func) fun st2 args =>
    if !found_tail && in_func then
      (st2, .ok (.tailCall func (args.filterMap Except.toOption)))
    else
      trampoline fuel env (call_function fuel st2 env func args)
termination_by structural fuel => fuel

/-- `call_function` (interpreter.rs lines 294–347).  For a native, the
arguments are collected fail-fast; for a lambda, the binding loop runs
(its `entries` map is then discarded, exactly as in the source, where
it is never inserted into `arg_env`), a fresh empty child of the
captured environment is created, and the body runs as a block with
`found_tail = false`, `in_func = true`; anything else is NotCallable. -/
def call_function : Nat → Store → Nat → Value → List (Except String Value) → Store × Res Value
  | 0, st, _, _, _ => (st, .timeout)
  | fuel + 1, st, env, func, args =>
    match func with
    | .native name =>
      match sequenceArgs args with
      | .error e => (st, .rerr e)
      | .ok argsVec => apply_native st env name argsVec
    | .lambda closure argnames body =>
      withRes st (bindArgs 0 argnames args) fun _entries =>
      let ext := st.extend closure
      match body.as_list with
      | some bodyClauses => eval_block_inner fuel ext.1 ext.2 bodyClauses false true
      | none => (ext.1, .crash)
    | _ => (st, .rerr "not callable")
termination_by structural fuel => fuel

/-- The trampoline loop of the call rule (interpreter.rs lines
248–254): while the result of invocation is an `ok` `tailCall`, invoke
again with its carried function and arguments (re-wrapped as `Ok`),
discarding the marker. -/
def trampoline : Nat → Nat → Store × Res Value → Store × Res Value
  | 0, _, (st, .ok (.tailCall _ _)) => (st, .timeout)
  | fuel + 1, env, (st, .ok (.tailCall f as)) =>
    trampoline fuel env (call_function fuel st env f (as.map Except.ok))
  | _, _, r => r
termination_by structural fuel => fuel

end

/-- `eval` (interpreter.rs lines 5–7): the public entry point starts
with both context bits false. -/
def eval (fuel : Nat) (st : Store) (env : Nat) (expression : Value) : Store × Res Value :=
  eval_inner fuel st env expression false false

/-- `eval_block` (interpreter.rs lines 11–16). -/
def eval_block (fuel : Nat) (st : Store) (env : Nat) (clauses : List Value) : Store × Res Value :=
  eval_block_inner fuel st env clauses false false

/-! ### Concrete environments and programs used by the claims -/

/-- A root environment holding the one modelled native, `+`. -/
def stdStore : Store := ⟨[⟨[("+", .native "+")], none⟩]⟩

/-- A root environment binding `g` to a zero-parameter closure whose
body is the literal `42`. -/
def discardStore : Store := ⟨[⟨[("g", .lambda 0 [] (.list [.int 42]))], none⟩]⟩

/-- Two frames: a root binding `x ↦ 1` and an empty child of it. -/
def twoFrameStore : Store := ⟨[⟨[("x", .int 1)], none⟩, ⟨[], some 0⟩]⟩

/-- `((lambda (x) x))` — a one-parameter closure invoked with no
arguments. -/
def arityCrashProgram : Value :=
  .list [.list [.symbol "lambda", .list [.symbol "x"], .symbol "x"]]

/-- `((lambda () (g nope)))` — the inner call to `g` sits in deferred
(tail-candidate) position and its argument `nope` is an undefined
symbol whose evaluation errors. -/
def discardProgram : Value :=
  .list [.list [.symbol "lambda", .list [],
    .list [.symbol "g", .symbol "nope"]]]

/-- `(let ((x 1) (y x)) y)` — the second declaration references the
first. -/
def letSeqProgram : Value :=
  .list [.symbol "let",
    .list [.list [.symbol "x", .int 1],
           .list [.symbol "y", .symbol "x"]],
    .symbol "y"]

/-- `(let ((a 1) (b (+ a 1))) b)` — the spec's sequential-binding
example. -/
def letSpecProgram : Value :=
  .list [.symbol "let",
    .list [.list [.symbol "a", .int 1],
           .list [.symbol "b", .list [.symbol "+", .symbol "a", .int 1]]],
    .symbol "b"]

/-- `(cond (#f 1) (#f 2) (#t 3) (#t boom))` — the spec's example with
the fourth clause made observable: `boom` is undefined, so evaluating
it would error. -/
def condSpecProgram : Value :=
  .list [.symbol "cond",
    .list [.bool false, .int 1],
    .list [.bool false, .int 2],
    .list [.bool true, .int 3],
    .list [.bool true, .symbol "boom"]]

/-! ### Claims -/

/-- C1: the spec requires a closure invocation with fewer arguments
than required named parameters to fail with ArityMismatch and not to
perform any out-of-bounds access; the code instead indexes
`args[index]` with no arity check and panics.  Both the whole program
`((lambda (x) x))` and a direct `call_function` on a one-parameter
closure with an empty argument vector end in the panic outcome, and no
ArityMismatch error exists in the interpreter. -/
theorem claim_C1_arity_crash :
    (eval 10 stdStore 0 arityCrashProgram).2 = Res.crash ∧
    call_function 5 stdStore 0 (.lambda 0 ["x"] (.list [.symbol "x"])) []
      = (stdStore, Res.crash) :=
  ⟨rfl, rfl⟩

/-- C9: a sequential block with zero expressions — an empty `begin`, an
empty `let` body, an empty closure body — fails with the EmptyBody
error (the interpreter's message for it is "Unrecognized expression")
rather than returning a value. -/
theorem claim_C9_empty_body :
    (∀ fuel (st : Store) env ft inf,
        eval_block_inner (fuel + 1) st env [] ft inf
          = (st, Res.rerr "Unrecognized expression")) ∧
    (eval 10 stdStore 0 (.list [.symbol "begin"])).2
      = Res.rerr "Unrecognized expression" ∧
    (eval 10 stdStore 0 (.list [.symbol "let", .list []])).2
      = Res.rerr "Unrecognized expression" ∧
    (eval 10 stdStore 0 (.list [.list [.symbol "lambda", .list []]])).2
      = Res.rerr "Unrecognized expression" :=
  ⟨fun _ _ _ _ _ => rfl, rfl, rfl, rfl⟩

/-- C10: a one-element `cond` clause fails with the
ImproperListAccess-style error no matter what its condition is and no
matter what clauses follow, because the `then` expression is extracted
(with `car` on the empty rest) before the condition is evaluated; in
the closed example the clause's condition is an undefined symbol and a
later matching clause exists, yet the result is the `car`-on-nil
error, not an UndefinedSymbol error and not the later clause's
value. -/
theorem claim_C10_cond_short_clause :
    (∀ fuel (st : Store) env c rest ft inf,
        cond_clauses (fuel + 1) st env (Value.list [c] :: rest) ft inf
          = (st, Res.rerr improper_access_msg)) ∧
    (eval 10 stdStore 0
        (.list [.symbol "cond", .list [.symbol "nope"],
                .list [.bool true, .int 5]])).2
      = Res.rerr improper_access_msg :=
  ⟨fun _ _ _ _ _ _ _ => rfl, rfl⟩

/-- A head value that triggers one of the special-form branches. -/
def isSpecialKw (kw : String) : Prop :=
  kw = "define" ∨ kw = "set" ∨ kw = "defun" ∨ kw = "lambda" ∨ kw = "quote" ∨
  kw = "let" ∨ kw = "begin" ∨ kw = "cond" ∨ kw = "if" ∨ kw = "and" ∨ kw = "or"

/-- A list head that is routed to a special form rather than to the
function-call rule. -/
def headIsSpecial : Value → Prop
  | .symbol kw => isSpecialKw kw
  | _ => False

/-- C2: when a not-yet-tail-eligible call inside a function body builds
its deferred-call argument list, evaluation errors among the arguments
are silently discarded: if the operator evaluates to `f` and the
operand sweep produces the per-argument results `argres`, the call
returns `ok` with a `tailCall` whose argument list keeps only the `Ok`
entries, never an error.  End to end, `((lambda () (g nope)))` returns
`42` although the argument `nope` of the tail call errors; and the
closure rest-parameter binding in `call_function` likewise drops an
errored argument instead of propagating it. -/
theorem claim_C2_arg_errors_discarded :
    (∀ fuel st env head tl st1 f st2 argres,
        ¬ headIsSpecial head →
        eval_inner fuel st env head true true = (st1, Res.ok f) →
        eval_args fuel st1 env tl true = (st2, Res.ok argres) →
        eval_inner (fuel + 2) st env (.list (head :: tl)) false true
          = (st2, Res.ok (.tailCall f (argres.filterMap Except.toOption)))) ∧
    (eval 40 discardStore 0 discardProgram).2 = Res.ok (.int 42) ∧
    call_function 10 discardStore 0 (.lambda 0 ["..."] (.list [.int 9]))
        [Except.ok (.int 1), Except.error "boom", Except.ok (.int 2)]
      = (⟨discardStore.frames ++ [⟨[], some 0⟩]⟩, Res.ok (.int 9)) := by
  refine ⟨?_, rfl, rfl⟩
  intro fuel st env head tl st1 f st2 argres hsp h1 h2
  have hred : eval_inner (fuel + 2) st env (.list (head :: tl)) false true
      = call_expr (fuel + 1) st env head tl false true := by
    cases head with
    | symbol kw =>
      simp only [headIsSpecial, isSpecialKw] at hsp
      push_neg at hsp
      obtain ⟨e1, e2, e3, e4, e5, e6, e7, e8, e9, e10, e11⟩ := hsp
      show eval_inner ((fuel + 1) + 1) st env (.list (.symbol kw :: tl)) false true = _
      simp only [eval_inner, e1, e2, e3, e4, e5, e6, e7, e8, e9, e10, e11,
        or_self, if_false, ite_false]
    | int n => rfl
    | str s => rfl
    | bool b => rfl
    | list l => rfl
    | lambda a b c => rfl
    | native n => rfl
    | tailCall a b => rfl
  have hc : call_expr (fuel + 1) st env head tl false true
      = andThen (eval_inner fuel st env head true true) (fun s1 func =>
          andThen (eval_args fuel s1 env tl true) (fun s2 args =>
            if !false && true then
              (s2, Res.ok (.tailCall func (args.filterMap Except.toOption)))
            else trampoline fuel env (call_function fuel s2 env func args))) := rfl
  rw [hred, hc, h1]
  simp only [andThen]
  rw [h2]
  simp [andThen]

/-- Witness for C2: inside a function body, the deferred call
`(g nope)` — whose argument is an undefined symbol — produces an `ok`
deferred call with the errored argument dropped. -/
theorem claim_C2_arg_errors_discarded_witness :
    eval_inner 5 discardStore 0 (.list [.symbol "g", .symbol "nope"]) false true
      = (discardStore, Res.ok (.tailCall (.lambda 0 [] (.list [.int 42])) [])) :=
  claim_C2_arg_errors_discarded.1 3 discardStore 0 (.symbol "g") [.symbol "nope"]
    discardStore (.lambda 0 [] (.list [.int 42])) discardStore
    [Except.error ("nope" ++ " is not defined")]
    (by simp [headIsSpecial, isSpecialKw]) rfl rfl



/-- C5: `cond` evaluates conditions in clause order as non-tail
evaluations (the hypothesis evaluates the first clause's condition with
`found_tail = true`); on a truthy condition the clause's `then` branch
is evaluated with the caller's tail context and the remaining clauses
never appear in the result; on a falsy condition evaluation moves to
the remaining clauses; with no clauses the form returns `Nil`.  In the
spec's example the third clause wins and the fourth — whose `then`
expression is an undefined symbol that would error — is never
evaluated. -/
theorem claim_C5_cond_order :
    (∀ fuel st env cond1 then1 more rest ft inf st1 v,
        eval_inner fuel st env cond1 true inf = (st1, Res.ok v) →
        v.is_truthy = true →
        eval_inner (fuel + 2) st env
            (.list (.symbol "cond" :: .list (cond1 :: then1 :: more) :: rest)) ft inf
          = eval_inner fuel st1 env then1 ft inf) ∧
    (∀ fuel st env cond1 then1 more rest ft inf st1 v,
        eval_inner fuel st env cond1 true inf = (st1, Res.ok v) →
        v.is_truthy = false →
        eval_inner (fuel + 2) st env
            (.list (.symbol "cond" :: .list (cond1 :: then1 :: more) :: rest)) ft inf
          = cond_clauses fuel st1 env rest ft inf) ∧
    (∀ fuel (st : Store) env ft inf,
        eval_inner (fuel + 2) st env (.list [.symbol "cond"]) ft inf
          = (st, Res.ok Value.NIL)) ∧
    (eval 30 stdStore 0 condSpecProgram).2 = Res.ok (.int 3) := by
  refine ⟨?_, ?_, fun _ _ _ _ _ => rfl, rfl⟩ <;>
  · intro fuel st env cond1 then1 more rest ft inf st1 v h1 ht
    have hc : eval_inner (fuel + 2) st env
        (.list (.symbol "cond" :: .list (cond1 :: then1 :: more) :: rest)) ft inf
        = andThen (eval_inner fuel st env cond1 true inf) (fun s1 w =>
            if w.is_truthy then eval_inner fuel s1 env then1 ft inf
            else cond_clauses fuel s1 env rest ft inf) := rfl
    rw [hc, h1]
    simp [andThen, ht]

/-- Witness for C5: both hypothesis-carrying parts applied at concrete
inputs — a truthy first clause selects its own branch, a falsy first
clause moves on to the remaining clauses. -/
theorem claim_C5_cond_order_witness :
    eval_inner 5 stdStore 0
        (.list (.symbol "cond" :: .list [.bool true, .int 7]
                  :: [.list [.bool true, .int 8]])) false false
      = eval_inner 3 stdStore 0 (.int 7) false false ∧
    eval_inner 5 stdStore 0
        (.list (.symbol "cond" :: .list [.bool false, .int 7]
                  :: [.list [.bool true, .int 8]])) false false
      = cond_clauses 3 stdStore 0 [.list [.bool true, .int 8]] false false :=
  ⟨claim_C5_cond_order.1 3 stdStore 0 (.bool true) (.int 7) [] [.list [.bool true, .int 8]]
      false false stdStore (.bool true) rfl rfl,
   claim_C5_cond_order.2.1 3 stdStore 0 (.bool false) (.int 7) [] [.list [.bool true, .int 8]]
      false false stdStore (.bool false) rfl rfl⟩

/-- C8: `if` evaluates its condition non-tail (the hypothesis evaluates
it with `found_tail = true`); exactly one branch is then evaluated with
the caller's tail context — the result does not mention the other
branch; a falsy condition with no else expression yields `Nil`.  The
closed examples put an undefined symbol in the never-taken slot. -/
theorem claim_C8_if_branches :
    (∀ fuel st env c t e ft inf st1 v,
        eval_inner fuel st env c true inf = (st1, Res.ok v) →
        v.is_truthy = true →
        eval_inner (fuel + 1) st env (.list [.symbol "if", c, t, e]) ft inf
          = eval_inner fuel st1 env t ft inf) ∧
    (∀ fuel st env c t e ft inf st1 v,
        eval_inner fuel st env c true inf = (st1, Res.ok v) →
        v.is_truthy = false →
        eval_inner (fuel + 1) st env (.list [.symbol "if", c, t, e]) ft inf
          = eval_inner fuel st1 env e ft inf) ∧
    (∀ fuel st env c t ft inf st1 v,
        eval_inner fuel st env c true inf = (st1, Res.ok v) →
        v.is_truthy = false →
        eval_inner (fuel + 1) st env (.list [.symbol "if", c, t]) ft inf
          = (st1, Res.ok Value.NIL)) ∧
    (eval 10 stdStore 0 (.list [.symbol "if", .bool true, .int 1, .symbol "boom"])).2
      = Res.ok (.int 1) ∧
    (eval 10 stdStore 0 (.list [.symbol "if", .bool false, .symbol "boom", .int 2])).2
      = Res.ok (.int 2) ∧
    (eval 10 stdStore 0 (.list [.symbol "if", .bool false, .symbol "boom"])).2
      = Res.ok Value.NIL := by
  refine ⟨?_, ?_, ?_, rfl, rfl, rfl⟩
  · intro fuel st env c t e ft inf st1 v h1 ht
    have hc : eval_inner (fuel + 1) st env (.list [.symbol "if", c, t, e]) ft inf
        = andThen (eval_inner fuel st env c true inf) (fun s1 w =>
            if w.is_truthy then eval_inner fuel s1 env t ft inf
            else eval_inner fuel s1 env e ft inf) := rfl
    rw [hc, h1]
    simp [andThen, ht]
  · intro fuel st env c t e ft inf st1 v h1 ht
    have hc : eval_inner (fuel + 1) st env (.list [.symbol "if", c, t, e]) ft inf
        = andThen (eval_inner fuel st env c true inf) (fun s1 w =>
            if w.is_truthy then eval_inner fuel s1 env t ft inf
            else eval_inner fuel s1 env e ft inf) := rfl
    rw [hc, h1]
    simp [andThen, ht]
  · intro fuel st env c t ft inf st1 v h1 ht
    have hc : eval_inner (fuel + 1) st env (.list [.symbol "if", c, t]) ft inf
        = andThen (eval_inner fuel st env c true inf) (fun s1 w =>
            if w.is_truthy then eval_inner fuel s1 env t ft inf
            else (s1, Res.ok Value.NIL)) := rfl
    rw [hc, h1]
    simp [andThen, ht]

/-- Witness for C8: the three hypothesis-carrying parts applied at
concrete inputs. -/
theorem claim_C8_if_branches_witness :
    eval_inner 4 stdStore 0 (.list [.symbol "if", .bool true, .int 1, .int 2]) false false
      = eval_inner 3 stdStore 0 (.int 1) false false ∧
    eval_inner 4 stdStore 0 (.list [.symbol "if", .bool false, .int 1, .int 2]) false false
      = eval_inner 3 stdStore 0 (.int 2) false false ∧
    eval_inner 4 stdStore 0 (.list [.symbol "if", .bool false, .int 1]) false false
      = (stdStore, Res.ok Value.NIL) :=
  ⟨claim_C8_if_branches.1 3 stdStore 0 (.bool true) (.int 1) (.int 2) false false
      stdStore (.bool true) rfl rfl,
   claim_C8_if_branches.2.1 3 stdStore 0 (.bool false) (.int 1) (.int 2) false false
      stdStore (.bool false) rfl rfl,
   claim_C8_if_branches.2.2.1 3 stdStore 0 (.bool false) (.int 1) false false
      stdStore (.bool false) rfl rfl⟩


/-- C7: `and`/`or` on exactly two operands short-circuit — with a falsy
first operand `and` returns the boolean-false atom without the second
operand appearing in the result, and dually for `or` with a truthy
first operand; when the first operand does not decide the result, the
second is evaluated and the result is the boolean atom of its
truthiness (never the operand value itself); truthiness deems a value
falsy exactly when it is `Nil` or the boolean-false atom.  The closed
examples place an undefined symbol in the short-circuited slot and
show `(and #t 0)` is `#t` (`0` is truthy, and the result is a boolean,
not `0`). -/
theorem claim_C7_and_or :
    (∀ fuel st env a b ft inf st1 va,
        eval_inner fuel st env a true inf = (st1, Res.ok va) →
        va.is_truthy = false →
        eval_inner (fuel + 1) st env (.list [.symbol "and", a, b]) ft inf
          = (st1, Res.ok (Value.bool false))) ∧
    (∀ fuel st env a b ft inf st1 va,
        eval_inner fuel st env a true inf = (st1, Res.ok va) →
        va.is_truthy = true →
        eval_inner (fuel + 1) st env (.list [.symbol "or", a, b]) ft inf
          = (st1, Res.ok (Value.bool true))) ∧
    (∀ fuel st env a b ft inf st1 va st2 vb,
        eval_inner fuel st env a true inf = (st1, Res.ok va) →
        va.is_truthy = true →
        eval_inner fuel st1 env b true inf = (st2, Res.ok vb) →
        eval_inner (fuel + 1) st env (.list [.symbol "and", a, b]) ft inf
          = (st2, Res.ok (Value.bool vb.is_truthy))) ∧
    (∀ fuel st env a b ft inf st1 va st2 vb,
        eval_inner fuel st env a true inf = (st1, Res.ok va) →
        va.is_truthy = false →
        eval_inner fuel st1 env b true inf = (st2, Res.ok vb) →
        eval_inner (fuel + 1) st env (.list [.symbol "or", a, b]) ft inf
          = (st2, Res.ok (Value.bool vb.is_truthy))) ∧
    (∀ v : Value, v.is_truthy = false ↔ (v = Value.NIL ∨ v = Value.bool false)) ∧
    (eval 10 stdStore 0 (.list [.symbol "and", .bool false, .symbol "boom"])).2
      = Res.ok (Value.bool false) ∧
    (eval 10 stdStore 0 (.list [.symbol "or", .bool true, .symbol "boom"])).2
      = Res.ok (Value.bool true) ∧
    (eval 10 stdStore 0 (.list [.symbol "and", .bool true, .int 0])).2
      = Res.ok (Value.bool true) := by
  refine ⟨?_, ?_, ?_, ?_, ?_, rfl, rfl, rfl⟩
  · intro fuel st env a b ft inf st1 va h1 ht
    have hc : eval_inner (fuel + 1) st env (.list [.symbol "and", a, b]) ft inf
        = andThen (eval_inner fuel st env a true inf) (fun s1 w =>
            if w.is_truthy then
              andThen (eval_inner fuel s1 env b true inf) (fun s2 wb =>
                (s2, Res.ok (Value.from_truth wb.is_truthy)))
            else (s1, Res.ok (Value.from_truth false))) := rfl
    rw [hc, h1]
    simp [andThen, ht, Value.from_truth]
  · intro fuel st env a b ft inf st1 va h1 ht
    have hc : eval_inner (fuel + 1) st env (.list [.symbol "or", a, b]) ft inf
        = andThen (eval_inner fuel st env a true inf) (fun s1 w =>
            if w.is_truthy then (s1, Res.ok (Value.from_truth true))
            else
              andThen (eval_inner fuel s1 env b true inf) (fun s2 wb =>
                (s2, Res.ok (Value.from_truth wb.is_truthy)))) := rfl
    rw [hc, h1]
    simp [andThen, ht, Value.from_truth]
  · intro fuel st env a b ft inf st1 va st2 vb h1 ht h2
    have hc : eval_inner (fuel + 1) st env (.list [.symbol "and", a, b]) ft inf
        = andThen (eval_inner fuel st env a true inf) (fun s1 w =>
            if w.is_truthy then
              andThen (eval_inner fuel s1 env b true inf) (fun s2 wb =>
                (s2, Res.ok (Value.from_truth wb.is_truthy)))
            else (s1, Res.ok (Value.from_truth false))) := rfl
    rw [hc, h1]
    simp only [andThen, ht, if_true]
    rw [h2]
    simp [andThen, Value.from_truth]
  · intro fuel st env a b ft inf st1 va st2 vb h1 ht h2
    have hc : eval_inner (fuel + 1) st env (.list [.symbol "or", a, b]) ft inf
        = andThen (eval_inner fuel st env a true inf) (fun s1 w =>
            if w.is_truthy then (s1, Res.ok (Value.from_truth true))
            else
              andThen (eval_inner fuel s1 env b true inf) (fun s2 wb =>
                (s2, Res.ok (Value.from_truth wb.is_truthy)))) := rfl
    rw [hc, h1]
    simp only [andThen, ht, if_false]
    rw [h2]
    simp [andThen, Value.from_truth]
  · intro v
    cases v with
    | list l => cases l <;> simp [Value.is_truthy, Value.NIL]
    | bool b => cases b <;> simp [Value.is_truthy, Value.NIL]
    | int n => simp [Value.is_truthy, Value.NIL]
    | str s => simp [Value.is_truthy, Value.NIL]
    | symbol s => simp [Value.is_truthy, Value.NIL]
    | lambda a b c => simp [Value.is_truthy, Value.NIL]
    | native n => simp [Value.is_truthy, Value.NIL]
    | tailCall f as => simp [Value.is_truthy, Value.NIL]

/-- Witness for C7: the four hypothesis-carrying parts applied at
concrete inputs. -/
theorem claim_C7_and_or_witness :
    eval_inner 4 stdStore 0 (.list [.symbol "and", .bool false, .int 1]) false false
      = (stdStore, Res.ok (Value.bool false)) ∧
    eval_inner 4 stdStore 0 (.list [.symbol "or", .bool true, .int 1]) false false
      = (stdStore, Res.ok (Value.bool true)) ∧
    eval_inner 4 stdStore 0 (.list [.symbol "and", .bool true, .int 1]) false false
      = (stdStore, Res.ok (Value.bool ((Value.int 1).is_truthy))) ∧
    eval_inner 4 stdStore 0 (.list [.symbol "or", .bool false, .int 1]) false false
      = (stdStore, Res.ok (Value.bool ((Value.int 1).is_truthy))) :=
  ⟨claim_C7_and_or.1 3 stdStore 0 (.bool false) (.int 1) false false
      stdStore (.bool false) rfl rfl,
   claim_C7_and_or.2.1 3 stdStore 0 (.bool true) (.int 1) false false
      stdStore (.bool true) rfl rfl,
   claim_C7_and_or.2.2.1 3 stdStore 0 (.bool true) (.int 1) false false
      stdStore (.bool true) stdStore (.int 1) rfl rfl rfl,
   claim_C7_and_or.2.2.2.1 3 stdStore 0 (.bool false) (.int 1) false false
      stdStore (.bool false) stdStore (.int 1) rfl rfl rfl⟩

/-- C6: `define`/`set` with a symbol name evaluate the value expression
first, non-tail (the hypothesis evaluates it with `found_tail = true`);
`define` then binds in the current frame via `Store.define` (which
writes only the innermost frame), `set` mutates via `Store.setVar`
(which walks the chain to the nearest frame already holding the symbol)
and fails with the UnboundAssignment error when no frame holds it; in
the success cases both return the evaluated value.  The closed examples
show `set` from a child frame mutating the parent binding in place,
`define` from the same child creating a shadowing binding in the child
only, and `set` of a never-bound symbol failing. -/
theorem claim_C6_define_set :
    (∀ fuel st env name e ft inf st1 v,
        eval_inner fuel st env e true inf = (st1, Res.ok v) →
        eval_inner (fuel + 1) st env (.list [.symbol "define", .symbol name, e]) ft inf
          = (st1.define env name v, Res.ok v)) ∧
    (∀ fuel st env name e ft inf st1 v st2,
        eval_inner fuel st env e true inf = (st1, Res.ok v) →
        st1.setVar env name v = some st2 →
        eval_inner (fuel + 1) st env (.list [.symbol "set", .symbol name, e]) ft inf
          = (st2, Res.ok v)) ∧
    (∀ fuel st env name e ft inf st1 v,
        eval_inner fuel st env e true inf = (st1, Res.ok v) →
        st1.setVar env name v = none →
        eval_inner (fuel + 1) st env (.list [.symbol "set", .symbol name, e]) ft inf
          = (st1, Res.rerr "Tried to set an unbound symbol")) ∧
    eval_inner 10 twoFrameStore 1 (.list [.symbol "set", .symbol "x", .int 5]) false false
      = (⟨[⟨[("x", .int 5)], none⟩, ⟨[], some 0⟩]⟩, Res.ok (.int 5)) ∧
    eval_inner 10 twoFrameStore 1 (.list [.symbol "define", .symbol "x", .int 7]) false false
      = (⟨[⟨[("x", .int 1)], none⟩, ⟨[("x", .int 7)], some 0⟩]⟩, Res.ok (.int 7)) ∧
    (eval 10 stdStore 0 (.list [.symbol "set", .symbol "zz", .int 1])).2
      = Res.rerr "Tried to set an unbound symbol" := by
  refine ⟨?_, ?_, ?_, rfl, rfl, rfl⟩
  · intro fuel st env name e ft inf st1 v h1
    have hc : eval_inner (fuel + 1) st env (.list [.symbol "define", .symbol name, e]) ft inf
        = andThen (eval_inner fuel st env e true inf) (fun s1 w =>
            (s1.define env name w, Res.ok w)) := rfl
    rw [hc, h1]
    simp [andThen]
  · intro fuel st env name e ft inf st1 v st2 h1 h2
    have hc : eval_inner (fuel + 1) st env (.list [.symbol "set", .symbol name, e]) ft inf
        = andThen (eval_inner fuel st env e true inf) (fun s1 w =>
            match s1.setVar env name w with
            | some s2 => (s2, Res.ok w)
            | none => (s1, Res.rerr "Tried to set an unbound symbol")) := rfl
    rw [hc, h1]
    simp only [andThen]
    rw [h2]
  · intro fuel st env name e ft inf st1 v h1 h2
    have hc : eval_inner (fuel + 1) st env (.list [.symbol "set", .symbol name, e]) ft inf
        = andThen (eval_inner fuel st env e true inf) (fun s1 w =>
            match s1.setVar env name w with
            | some s2 => (s2, Res.ok w)
            | none => (s1, Res.rerr "Tried to set an unbound symbol")) := rfl
    rw [hc, h1]
    simp only [andThen]
    rw [h2]

/-- Witness for C6: the three hypothesis-carrying parts applied at
concrete inputs. -/
theorem claim_C6_define_set_witness :
    eval_inner 4 twoFrameStore 1 (.list [.symbol "define", .symbol "y", .int 3]) false false
      = (twoFrameStore.define 1 "y" (.int 3), Res.ok (.int 3)) ∧
    eval_inner 4 twoFrameStore 1 (.list [.symbol "set", .symbol "x", .int 5]) false false
      = (⟨[⟨[("x", .int 5)], none⟩, ⟨[], some 0⟩]⟩, Res.ok (.int 5)) ∧
    eval_inner 4 twoFrameStore 1 (.list [.symbol "set", .symbol "zz", .int 5]) false false
      = (twoFrameStore, Res.rerr "Tried to set an unbound symbol") :=
  ⟨claim_C6_define_set.1 3 twoFrameStore 1 "y" (.int 3) false false
      twoFrameStore (.int 3) rfl,
   claim_C6_define_set.2.1 3 twoFrameStore 1 "x" (.int 5) false false
      twoFrameStore (.int 5) ⟨[⟨[("x", .int 5)], none⟩, ⟨[], some 0⟩]⟩ rfl rfl,
   claim_C6_define_set.2.2.1 3 twoFrameStore 1 "zz" (.int 5) false false
      twoFrameStore (.int 5) rfl rfl⟩


/-- Helper: reading the frame just appended to a store. -/
theorem frames_concat_getElem (l : List Frame) (fr : Frame) :
    (l ++ [fr])[l.length]? = some fr := by
  simp

/-- Helper: overwriting the frame just appended to a store. -/
theorem frames_concat_set (l : List Frame) (fr fr2 : Frame) :
    (l ++ [fr]).set l.length fr2 = l ++ [fr2] := by
  induction l with
  | nil => rfl
  | cons a t ih => simp [List.set, ih]

/-- Helper: `Store.define` on the frame just appended. -/
theorem Store.define_concat (st : Store) (fr : Frame) (s : String) (v : Value) :
    Store.define ⟨st.frames ++ [fr]⟩ st.frames.length s v
      = ⟨st.frames ++ [{ fr with entries := insertEntry fr.entries s v }]⟩ := by
  unfold Store.define
  simp [frames_concat_getElem, frames_concat_set]

/-- Helper: `Store.get` on the frame just appended, when the symbol is
bound there. -/
theorem Store.get_concat (st : Store) (fr : Frame) (s : String) (v : Value)
    (h : lookupEntries fr.entries s = some v) :
    Store.get ⟨st.frames ++ [fr]⟩ st.frames.length s = some v := by
  unfold Store.get Store.chainGet
  simp [frames_concat_getElem, h]

/-- C4: a `let` form creates a single new child frame (the store grows
by exactly one frame, parented to the evaluation environment) and
evaluates the declarations sequentially in that same frame, binding
each name before the next declaration is evaluated — in
`(let ((x 1) (y x)) y)` the declaration of `y` reads the `x` bound by
the first declaration, over any starting store whatsoever; and the
spec's example `(let ((a 1) (b (+ a 1))) b)` evaluates to `2`. -/
theorem claim_C4_let_sequential :
    (∀ fuel (st : Store) env ft inf,
        eval_inner (fuel + 5) st env letSeqProgram ft inf
          = (⟨st.frames ++ [⟨[("x", .int 1), ("y", .int 1)], some env⟩]⟩,
             Res.ok (.int 1))) ∧
    (eval 30 stdStore 0 letSpecProgram).2 = Res.ok (.int 2) := by
  refine ⟨?_, rfl⟩
  intro fuel st env ft inf
  have hc : eval_inner (fuel + 5) st env letSeqProgram ft inf
      = andThen (let_decls (fuel + 4) ⟨st.frames ++ [⟨[], some env⟩]⟩ st.frames.length
          [.list [.symbol "x", .int 1], .list [.symbol "y", .symbol "x"]] inf)
          (fun s1 _ =>
            eval_block_inner (fuel + 4) s1 st.frames.length [.symbol "y"] ft inf) := rfl
  rw [hc]
  have hd1 : let_decls (fuel + 4) ⟨st.frames ++ [⟨[], some env⟩]⟩ st.frames.length
      [.list [.symbol "x", .int 1], .list [.symbol "y", .symbol "x"]] inf
      = let_decls (fuel + 3)
          (Store.define ⟨st.frames ++ [⟨[], some env⟩]⟩ st.frames.length "x" (.int 1))
          st.frames.length [.list [.symbol "y", .symbol "x"]] inf := rfl
  rw [hd1, Store.define_concat]
  simp only [insertEntry]
  have hget : Store.get ⟨st.frames ++ [⟨[("x", .int 1)], some env⟩]⟩ st.frames.length "x"
      = some (.int 1) := Store.get_concat st _ "x" (.int 1) rfl
  have hd2 : let_decls (fuel + 3) ⟨st.frames ++ [⟨[("x", .int 1)], some env⟩]⟩
      st.frames.length [.list [.symbol "y", .symbol "x"]] inf
      = andThen (eval_inner (fuel + 2) ⟨st.frames ++ [⟨[("x", .int 1)], some env⟩]⟩
            st.frames.length (.symbol "x") true inf)
          (fun s1 r => let_decls (fuel + 2) (s1.define st.frames.length "y" r)
            st.frames.length [] inf) := rfl
  rw [hd2]
  have he : eval_inner (fuel + 2) ⟨st.frames ++ [⟨[("x", .int 1)], some env⟩]⟩
      st.frames.length (.symbol "x") true inf
      = (⟨st.frames ++ [⟨[("x", .int 1)], some env⟩]⟩, Res.ok (.int 1)) := by
    have hu : eval_inner (fuel + 2) ⟨st.frames ++ [⟨[("x", .int 1)], some env⟩]⟩
        st.frames.length (.symbol "x") true inf
        = match Store.get ⟨st.frames ++ [⟨[("x", .int 1)], some env⟩]⟩
            st.frames.length "x" with
          | some v => ((⟨st.frames ++ [⟨[("x", .int 1)], some env⟩]⟩ : Store), Res.ok v)
          | none => (⟨st.frames ++ [⟨[("x", .int 1)], some env⟩]⟩,
                     Res.rerr ("x" ++ " is not defined")) := rfl
    rw [hu, hget]
  rw [he]
  simp only [andThen]
  rw [show Store.define ⟨st.frames ++ [⟨[("x", .int 1)], some env⟩]⟩
      st.frames.length "y" (.int 1)
      = ⟨st.frames ++ [⟨[("x", .int 1), ("y", .int 1)], some env⟩]⟩ from by
    rw [Store.define_concat]
    simp [insertEntry]]
  have hb : let_decls (fuel + 2)
      ⟨st.frames ++ [⟨[("x", .int 1), ("y", .int 1)], some env⟩]⟩
      st.frames.length [] inf
      = (⟨st.frames ++ [⟨[("x", .int 1), ("y", .int 1)], some env⟩]⟩, Res.ok ()) := rfl
  rw [hb]
  simp only [andThen]
  have hby : eval_block_inner (fuel + 4)
      ⟨st.frames ++ [⟨[("x", .int 1), ("y", .int 1)], some env⟩]⟩
      st.frames.length [.symbol "y"] ft inf
      = match Store.get ⟨st.frames ++ [⟨[("x", .int 1), ("y", .int 1)], some env⟩]⟩
          st.frames.length "y" with
        | some v => ((⟨st.frames ++ [⟨[("x", .int 1), ("y", .int 1)], some env⟩]⟩ : Store),
                     Res.ok v)
        | none => (⟨st.frames ++ [⟨[("x", .int 1), ("y", .int 1)], some env⟩]⟩,
                   Res.rerr ("y" ++ " is not defined")) := rfl
  rw [hby, Store.get_concat st ⟨[("x", .int 1), ("y", .int 1)], some env⟩ "y" (.int 1) rfl]


/-! ### The tailCall marker never escapes `eval` (claim C3) -/

/-- Every value bound in a frame is free of `tailCall` markers. -/
def goodFrame (fr : Frame) : Bool := fr.entries.all (fun p => p.2.noTC)

/-- Every frame of the store is good. -/
def goodStore (st : Store) : Bool := st.frames.all goodFrame

/-- An evaluated-argument entry is good when its `Ok` payload (if any)
is free of `tailCall` markers. -/
def goodArg : Except String Value → Bool
  | .ok v => v.noTC
  | .error _ => true

/-- All evaluated-argument entries are good. -/
def goodArgs (l : List (Except String Value)) : Bool := l.all goodArg

/-- A strict evaluation outcome: the store is good and any `ok` value
carries no `tailCall` marker at all. -/
def GoodRes (p : Store × Res Value) : Prop :=
  goodStore p.1 = true ∧ ∀ v, p.2 = Res.ok v → v.noTC = true

/-- A context-relative outcome: like `GoodRes`, except that in the one
context that may defer a call (`found_tail = false` inside a function,
`in_func = true`) the value may instead be a `tailCall` marker whose
carried function and arguments are themselves marker-free. -/
def GoodResC (ft inf : Bool) (p : Store × Res Value) : Prop :=
  goodStore p.1 = true ∧ ∀ v, p.2 = Res.ok v →
    (v.noTC = true ∨
      (ft = false ∧ inf = true ∧
        ∃ f as, v = Value.tailCall f as ∧ f.noTC = true ∧ noTCL as = true))

theorem GoodRes.toC {ft inf : Bool} {p : Store × Res Value} (h : GoodRes p) :
    GoodResC ft inf p :=
  ⟨h.1, fun v hv => Or.inl (h.2 v hv)⟩

theorem GoodResC.strict {ft inf : Bool} {p : Store × Res Value}
    (h : GoodResC ft inf p) (hctx : ft = true ∨ inf = false) : GoodRes p := by
  refine ⟨h.1, fun v hv => ?_⟩
  rcases h.2 v hv with hg | ⟨hft, hinf, _⟩
  · exact hg
  · rcases hctx with h1 | h1 <;> simp [h1] at hft hinf

theorem GoodResC.ofTrue {inf : Bool} {p : Store × Res Value}
    (h : GoodResC true inf p) : GoodRes p :=
  h.strict (Or.inl rfl)

theorem GoodResC_ok {st : Store} {v : Value} (ft inf : Bool)
    (hst : goodStore st = true) (hv : v.noTC = true) :
    GoodResC ft inf (st, Res.ok v) :=
  ⟨hst, fun w hw => by cases hw; exact Or.inl hv⟩

theorem GoodResC_rerr {st : Store} (ft inf : Bool) {m : String}
    (hst : goodStore st = true) : GoodResC ft inf (st, Res.rerr m) :=
  ⟨hst, fun w hw => by cases hw⟩

theorem GoodResC_crash {st : Store} (ft inf : Bool)
    (hst : goodStore st = true) : GoodResC ft inf (st, Res.crash) :=
  ⟨hst, fun w hw => by cases hw⟩

theorem GoodResC_timeout {st : Store} (ft inf : Bool)
    (hst : goodStore st = true) : GoodResC ft inf (st, Res.timeout) :=
  ⟨hst, fun w hw => by cases hw⟩

theorem noTC_list {l : List Value} : (Value.list l).noTC = noTCL l := rfl

theorem noTCL_cons {a : Value} {l : List Value} :
    noTCL (a :: l) = (a.noTC && noTCL l) := rfl

theorem carV_noTC {l : List Value} {a : Value}
    (h : carV l = some a) (hl : noTCL l = true) : a.noTC = true := by
  cases l with
  | nil => cases h
  | cons x t =>
    cases h
    rw [noTCL_cons, Bool.and_eq_true] at hl
    exact hl.1

theorem cdrV_noTC {l : List Value} (hl : noTCL l = true) :
    noTCL (cdrV l) = true := by
  cases l with
  | nil => exact hl
  | cons x t =>
    rw [noTCL_cons, Bool.and_eq_true] at hl
    exact hl.2

theorem as_list_noTC {v : Value} {l : List Value}
    (h : v.as_list = some l) (hv : v.noTC = true) : noTCL l = true := by
  cases v <;> cases h
  exact hv

theorem noTCL_mem {l : List Value} {a : Value}
    (hl : noTCL l = true) (ha : a ∈ l) : a.noTC = true := by
  induction l with
  | nil => cases ha
  | cons x t ih =>
    rw [noTCL_cons, Bool.and_eq_true] at hl
    rcases ha with _ | ha
    · exact hl.1
    · exact ih hl.2 (by assumption)

theorem goodArgs_filterMap {l : List (Except String Value)}
    (h : goodArgs l = true) : noTCL (l.filterMap Except.toOption) = true := by
  induction l with
  | nil => rfl
  | cons x t ih =>
    rw [goodArgs, List.all_cons, Bool.and_eq_true] at h
    cases x with
    | ok v =>
      simpa [Except.toOption, noTCL_cons, ih h.2] using h.1
    | error e =>
      simpa [Except.toOption] using ih h.2

theorem goodArgs_map_ok {as : List Value} (h : noTCL as = true) :
    goodArgs (as.map Except.ok) = true := by
  induction as with
  | nil => rfl
  | cons x t ih =>
    rw [noTCL_cons, Bool.and_eq_true] at h
    simpa [goodArgs, goodArg, h.1] using ih h.2

theorem sequenceArgs_good {l : List (Except String Value)} {vs : List Value}
    (h : goodArgs l = true) (hs : sequenceArgs l = .ok vs) : noTCL vs = true := by
  induction l generalizing vs with
  | nil => cases hs; rfl
  | cons x t ih =>
    rw [goodArgs, List.all_cons, Bool.and_eq_true] at h
    cases x with
    | ok v =>
      rw [sequenceArgs] at hs
      cases hseq : sequenceArgs t with
      | ok ws =>
        rw [hseq] at hs
        cases hs
        simp [noTCL_cons, ih h.2 hseq]
        exact h.1
      | error e => rw [hseq] at hs; cases hs
    | error e => cases hs


theorem lookupEntries_good {entries : List (String × Value)} {s : String} {v : Value}
    (hg : entries.all (fun p => p.2.noTC) = true)
    (h : lookupEntries entries s = some v) : v.noTC = true := by
  induction entries with
  | nil => cases h
  | cons p t ih =>
    rw [List.all_cons, Bool.and_eq_true] at hg
    rcases p with ⟨k, w⟩
    rw [lookupEntries] at h
    by_cases hk : k = s
    · rw [if_pos hk] at h
      cases h
      exact hg.1
    · rw [if_neg hk] at h
      exact ih hg.2 h

theorem insertEntry_good {entries : List (String × Value)} {s : String} {v : Value}
    (hg : entries.all (fun p => p.2.noTC) = true) (hv : v.noTC = true) :
    (insertEntry entries s v).all (fun p => p.2.noTC) = true := by
  induction entries with
  | nil => simp [insertEntry, hv]
  | cons p t ih =>
    rw [List.all_cons, Bool.and_eq_true] at hg
    rcases p with ⟨k, w⟩
    rw [insertEntry]
    by_cases hk : k = s
    · rw [if_pos hk, List.all_cons, Bool.and_eq_true]
      exact ⟨hv, hg.2⟩
    · rw [if_neg hk, List.all_cons, Bool.and_eq_true]
      exact ⟨hg.1, ih hg.2⟩

theorem mem_of_getElem_opt {α : Type} {l : List α} {i : Nat} {a : α}
    (h : l[i]? = some a) : a ∈ l := by
  rcases List.getElem?_eq_some.mp h with ⟨hlt, hEq⟩
  exact hEq ▸ List.getElem_mem hlt

theorem goodStore_getFrame {st : Store} {i : Nat} {fr : Frame}
    (hst : goodStore st = true) (h : st.frames[i]? = some fr) :
    goodFrame fr = true :=
  List.all_eq_true.mp hst fr (mem_of_getElem_opt h)

theorem chainGet_good {n : Nat} {st : Store} {i : Nat} {s : String} {v : Value}
    (hst : goodStore st = true) (h : Store.chainGet n st i s = some v) :
    v.noTC = true := by
  induction n generalizing i with
  | zero => cases h
  | succ n ih =>
    rw [Store.chainGet] at h
    cases hfr : st.frames[i]? with
    | none => simp only [hfr] at h; exact Option.noConfusion h
    | some fr =>
      simp only [hfr] at h
      cases hle : lookupEntries fr.entries s with
      | some w =>
        simp only [hle] at h
        cases h
        exact lookupEntries_good (goodStore_getFrame hst hfr) hle
      | none =>
        simp only [hle] at h
        cases hp : fr.parent with
        | some p => simp only [hp] at h; exact ih h
        | none => simp only [hp] at h; exact Option.noConfusion h

theorem get_good {st : Store} {i : Nat} {s : String} {v : Value}
    (hst : goodStore st = true) (h : st.get i s = some v) : v.noTC = true :=
  chainGet_good hst h

theorem goodStore_set_frames {st : Store} {i : Nat} {fr : Frame}
    (hst : goodStore st = true) (hfr : goodFrame fr = true) :
    goodStore ⟨st.frames.set i fr⟩ = true := by
  refine List.all_eq_true.mpr fun x hx => ?_
  rcases List.mem_or_eq_of_mem_set hx with hmem | heq
  · simpa using List.all_eq_true.mp hst x hmem
  · simpa [heq] using hfr

theorem define_good {st : Store} {i : Nat} {s : String} {v : Value}
    (hst : goodStore st = true) (hv : v.noTC = true) :
    goodStore (st.define i s v) = true := by
  rw [Store.define]
  cases hfr : st.frames[i]? with
  | none => exact hst
  | some fr =>
    exact goodStore_set_frames hst
      (insertEntry_good (goodStore_getFrame hst hfr) hv)

theorem setChain_good {n : Nat} {st st2 : Store} {i : Nat} {s : String} {v : Value}
    (hst : goodStore st = true) (hv : v.noTC = true)
    (h : Store.setChain n st i s v = some st2) : goodStore st2 = true := by
  induction n generalizing i with
  | zero => cases h
  | succ n ih =>
    rw [Store.setChain] at h
    cases hfr : st.frames[i]? with
    | none => simp only [hfr] at h; exact Option.noConfusion h
    | some fr =>
      simp only [hfr] at h
      cases hle : lookupEntries fr.entries s with
      | some w =>
        simp only [hle] at h
        cases h
        exact goodStore_set_frames hst
          (insertEntry_good (goodStore_getFrame hst hfr) hv)
      | none =>
        simp only [hle] at h
        cases hp : fr.parent with
        | some p => simp only [hp] at h; exact ih h
        | none => simp only [hp] at h; exact Option.noConfusion h

theorem setVar_good {st st2 : Store} {i : Nat} {s : String} {v : Value}
    (hst : goodStore st = true) (hv : v.noTC = true)
    (h : st.setVar i s v = some st2) : goodStore st2 = true :=
  setChain_good hst hv h

theorem extend_good {st : Store} {p : Nat}
    (hst : goodStore st = true) :
    goodStore ⟨st.frames ++ [⟨[], some p⟩]⟩ = true := by
  rw [goodStore] at hst
  rw [goodStore, List.all_append]
  simp [hst, goodFrame]

theorem apply_native_good {st : Store} {env : Nat} {name : String} {args : List Value}
    (hst : goodStore st = true) : GoodRes (apply_native st env name args) := by
  unfold apply_native
  split
  · exact ⟨hst, fun w hw => by cases hw; rfl⟩
  · exact ⟨hst, fun w hw => by cases hw⟩

theorem andThen_goodC {α : Type} (Q : α → Prop) (ft inf : Bool)
    {r : Store × Res α} {f : Store → α → Store × Res Value}
    (h1 : goodStore r.1 = true)
    (h2 : ∀ v, r.2 = Res.ok v → Q v)
    (hf : ∀ st v, goodStore st = true → Q v → GoodResC ft inf (f st v)) :
    GoodResC ft inf (andThen r f) := by
  rcases r with ⟨st, rr⟩
  cases rr with
  | ok v => exact hf st v h1 (h2 v rfl)
  | rerr m => exact GoodResC_rerr ft inf h1
  | crash => exact GoodResC_crash ft inf h1
  | timeout => exact GoodResC_timeout ft inf h1

theorem withCar_goodC {ft inf : Bool} {st : Store} {r : Option Value}
    {f : Value → Store × Res Value}
    (hst : goodStore st = true)
    (hf : ∀ v, r = some v → GoodResC ft inf (f v)) :
    GoodResC ft inf (withCar st r f) := by
  cases r with
  | some v => exact hf v rfl
  | none => exact GoodResC_rerr ft inf hst

theorem withRes_goodC {α : Type} {ft inf : Bool} {st : Store} {r : Res α}
    {f : α → Store × Res Value}
    (hst : goodStore st = true)
    (hf : ∀ v, r = Res.ok v → GoodResC ft inf (f v)) :
    GoodResC ft inf (withRes st r f) := by
  cases r with
  | ok v => exact hf v rfl
  | rerr m => exact GoodResC_rerr ft inf hst
  | crash => exact GoodResC_crash ft inf hst
  | timeout => exact GoodResC_timeout ft inf hst

theorem GoodResC_ok_not_tc {ft inf : Bool} {st : Store} {v : Value}
    (h : GoodResC ft inf (st, Res.ok v))
    (hv : ∀ f as, v ≠ Value.tailCall f as) : v.noTC = true := by
  rcases h.2 v rfl with hg | ⟨_, _, f, as, heq, _⟩
  · exact hg
  · exact absurd heq (hv f as)


/-! Reduction lemmas: one per special-form keyword, plus the
fallthrough to the call rule. -/

theorem eval_red_define (fuel : Nat) (st : Store) (env : Nat) (tl : List Value)
    (ft inf : Bool) :
    eval_inner (fuel + 1) st env (.list (.symbol "define" :: tl)) ft inf
      = withCar st (carV tl) (fun symv =>
          match symv.as_symbol with
          | none => (st, .rerr "Symbol required for definition")
          | some name =>
            withCar st (carV (cdrV tl)) fun value_expr =>
            andThen (eval_inner fuel st env value_expr true inf) fun st1 value =>
            (st1.define env name value, .ok value)) := rfl

theorem eval_red_set (fuel : Nat) (st : Store) (env : Nat) (tl : List Value)
    (ft inf : Bool) :
    eval_inner (fuel + 1) st env (.list (.symbol "set" :: tl)) ft inf
      = withCar st (carV tl) (fun symv =>
          match symv.as_symbol with
          | none => (st, .rerr "Symbol required for definition")
          | some name =>
            withCar st (carV (cdrV tl)) fun value_expr =>
            andThen (eval_inner fuel st env value_expr true inf) fun st1 value =>
            match st1.setVar env name value with
            | some st2 => (st2, .ok value)
            | none => (st1, .rerr "Tried to set an unbound symbol")) := rfl

theorem eval_red_defun (fuel : Nat) (st : Store) (env : Nat) (tl : List Value)
    (ft inf : Bool) :
    eval_inner (fuel + 1) st env (.list (.symbol "defun" :: tl)) ft inf
      = withCar st (carV tl) (fun symv =>
          match symv.as_symbol with
          | none => (st, .rerr "Function name must by a symbol")
          | some name =>
            withCar st (carV (cdrV tl)) fun argsv =>
            withRes st (value_to_argnames argsv) fun argnames =>
            (st.define env name (.lambda env argnames (.list (cdrV (cdrV tl)))),
             .ok Value.NIL)) := rfl

theorem eval_red_lambda (fuel : Nat) (st : Store) (env : Nat) (tl : List Value)
    (ft inf : Bool) :
    eval_inner (fuel + 1) st env (.list (.symbol "lambda" :: tl)) ft inf
      = withCar st (carV tl) (fun argsv =>
          withRes st (value_to_argnames argsv) fun argnames =>
          (st, .ok (.lambda env argnames (.list (cdrV tl))))) := rfl

theorem eval_red_quote (fuel : Nat) (st : Store) (env : Nat) (tl : List Value)
    (ft inf : Bool) :
    eval_inner (fuel + 1) st env (.list (.symbol "quote" :: tl)) ft inf
      = withCar st (carV tl) (fun v => (st, .ok v)) := rfl

theorem eval_red_let (fuel : Nat) (st : Store) (env : Nat) (tl : List Value)
    (ft inf : Bool) :
    eval_inner (fuel + 1) st env (.list (.symbol "let" :: tl)) ft inf
      = withCar ⟨st.frames ++ [⟨[], some env⟩]⟩ (carV tl) (fun declarations =>
          match declarations.as_list with
          | none => (⟨st.frames ++ [⟨[], some env⟩]⟩,
                     .rerr "Expected list of declarations for let form")
          | some decls =>
            andThen (let_decls fuel ⟨st.frames ++ [⟨[], some env⟩]⟩
                      st.frames.length decls inf) fun st1 _ =>
            eval_block_inner fuel st1 st.frames.length (cdrV tl) ft inf) := rfl

theorem eval_red_begin (fuel : Nat) (st : Store) (env : Nat) (tl : List Value)
    (ft inf : Bool) :
    eval_inner (fuel + 1) st env (.list (.symbol "begin" :: tl)) ft inf
      = eval_block_inner fuel st env tl ft inf := rfl

theorem eval_red_cond (fuel : Nat) (st : Store) (env : Nat) (tl : List Value)
    (ft inf : Bool) :
    eval_inner (fuel + 1) st env (.list (.symbol "cond" :: tl)) ft inf
      = cond_clauses fuel st env tl ft inf := rfl

theorem eval_red_if (fuel : Nat) (st : Store) (env : Nat) (tl : List Value)
    (ft inf : Bool) :
    eval_inner (fuel + 1) st env (.list (.symbol "if" :: tl)) ft inf
      = withCar st (carV tl) (fun condition =>
          withCar st (carV (cdrV tl)) fun then_expr =>
          andThen (eval_inner fuel st env condition true inf) fun st1 v =>
          if v.is_truthy then eval_inner fuel st1 env then_expr ft inf
          else
            match carV (cdrV (cdrV tl)) with
            | some e => eval_inner fuel st1 env e ft inf
            | none => (st1, .ok Value.NIL)) := rfl

theorem eval_red_and (fuel : Nat) (st : Store) (env : Nat) (tl : List Value)
    (ft inf : Bool) :
    eval_inner (fuel + 1) st env (.list (.symbol "and" :: tl)) ft inf
      = withCar st (carV tl) (fun a =>
          withCar st (carV (cdrV tl)) fun b =>
          andThen (eval_inner fuel st env a true inf) fun st1 va =>
          if va.is_truthy then
            andThen (eval_inner fuel st1 env b true inf) fun st2 vb =>
            (st2, .ok (Value.from_truth vb.is_truthy))
          else (st1, .ok (Value.from_truth false))) := rfl

theorem eval_red_or (fuel : Nat) (st : Store) (env : Nat) (tl : List Value)
    (ft inf : Bool) :
    eval_inner (fuel + 1) st env (.list (.symbol "or" :: tl)) ft inf
      = withCar st (carV tl) (fun a =>
          withCar st (carV (cdrV tl)) fun b =>
          andThen (eval_inner fuel st env a true inf) fun st1 va =>
          if va.is_truthy then (st1, .ok (Value.from_truth true))
          else
            andThen (eval_inner fuel st1 env b true inf) fun st2 vb =>
            (st2, .ok (Value.from_truth vb.is_truthy))) := rfl

theorem eval_red_call (fuel : Nat) (st : Store) (env : Nat) (kw : String)
    (tl : List Value) (ft inf : Bool)
    (e1 : ¬ kw = "define") (e2 : ¬ kw = "set") (e3 : ¬ kw = "defun")
    (e4 : ¬ kw = "lambda") (e5 : ¬ kw = "quote") (e6 : ¬ kw = "let")
    (e7 : ¬ kw = "begin") (e8 : ¬ kw = "cond") (e9 : ¬ kw = "if")
    (e10 : ¬ kw = "and") (e11 : ¬ kw = "or") :
    eval_inner (fuel + 1) st env (.list (.symbol kw :: tl)) ft inf
      = call_expr fuel st env (.symbol kw) tl ft inf := by
  simp only [eval_inner, e1, e2, e3, e4, e5, e6, e7, e8, e9, e10, e11,
    or_self, if_false, ite_false]

theorem eval_red_call_head (fuel : Nat) (st : Store) (env : Nat) (head : Value)
    (tl : List Value) (ft inf : Bool) (h : ∀ kw, head ≠ .symbol kw) :
    eval_inner (fuel + 1) st env (.list (head :: tl)) ft inf
      = call_expr fuel st env head tl ft inf := by
  cases head with
  | symbol kw => exact absurd rfl (h kw)
  | int n => rfl
  | str s => rfl
  | bool b => rfl
  | list l => rfl
  | lambda c a b => rfl
  | native nm => rfl
  | tailCall f as => rfl


set_option maxHeartbeats 1000000 in
theorem tc_invariant : ∀ fuel : Nat,
    (∀ st env e ft inf, goodStore st = true → e.noTC = true →
        GoodResC ft inf (eval_inner fuel st env e ft inf)) ∧
    (∀ st env cl ft inf, goodStore st = true → noTCL cl = true →
        GoodResC ft inf (eval_block_inner fuel st env cl ft inf)) ∧
    (∀ st env exprs inf, goodStore st = true → noTCL exprs = true →
        goodStore (eval_args fuel st env exprs inf).1 = true ∧
        ∀ l, (eval_args fuel st env exprs inf).2 = Res.ok l → goodArgs l = true) ∧
    (∀ st env decls inf, goodStore st = true → noTCL decls = true →
        goodStore (let_decls fuel st env decls inf).1 = true) ∧
    (∀ st env cls ft inf, goodStore st = true → noTCL cls = true →
        GoodResC ft inf (cond_clauses fuel st env cls ft inf)) ∧
    (∀ st env head tlist ft inf, goodStore st = true → head.noTC = true →
        noTCL tlist = true →
        GoodResC ft inf (call_expr fuel st env head tlist ft inf)) ∧
    (∀ st env f args, goodStore st = true → f.noTC = true → goodArgs args = true →
        GoodResC false true (call_function fuel st env f args)) ∧
    (∀ env p, GoodResC false true p → GoodRes (trampoline fuel env p)) := by
  intro fuel
  induction fuel with
  | zero =>
    refine ⟨?_, ?_, ?_, ?_, ?_, ?_, ?_, ?_⟩
    · intro st env e ft inf hst _
      exact GoodResC_timeout ft inf hst
    · intro st env cl ft inf hst _
      exact GoodResC_timeout ft inf hst
    · intro st env exprs inf hst _
      exact ⟨hst, fun l hl => by cases hl⟩
    · intro st env decls inf hst _
      exact hst
    · intro st env cls ft inf hst _
      exact GoodResC_timeout ft inf hst
    · intro st env head tlist ft inf hst _ _
      exact GoodResC_timeout ft inf hst
    · intro st env f args hst _ _
      exact GoodResC_timeout false true hst
    · intro env p hp
      rcases p with ⟨st, r⟩
      cases r with
      | ok v =>
        cases v with
        | tailCall f as => exact ⟨hp.1, fun w hw => by cases hw⟩
        | int n => exact ⟨hp.1, fun w hw => by cases hw; exact GoodResC_ok_not_tc hp nofun⟩
        | str s => exact ⟨hp.1, fun w hw => by cases hw; exact GoodResC_ok_not_tc hp nofun⟩
        | bool b => exact ⟨hp.1, fun w hw => by cases hw; exact GoodResC_ok_not_tc hp nofun⟩
        | symbol s => exact ⟨hp.1, fun w hw => by cases hw; exact GoodResC_ok_not_tc hp nofun⟩
        | list l => exact ⟨hp.1, fun w hw => by cases hw; exact GoodResC_ok_not_tc hp nofun⟩
        | lambda c a b => exact ⟨hp.1, fun w hw => by cases hw; exact GoodResC_ok_not_tc hp nofun⟩
        | native nm => exact ⟨hp.1, fun w hw => by cases hw; exact GoodResC_ok_not_tc hp nofun⟩
      | rerr m => exact ⟨hp.1, fun w hw => by cases hw⟩
      | crash => exact ⟨hp.1, fun w hw => by cases hw⟩
      | timeout => exact ⟨hp.1, fun w hw => by cases hw⟩
  | succ fuel ih =>
    obtain ⟨ihE, ihB, ihA, ihL, ihC, ihX, ihF, ihT⟩ := ih
    refine ⟨?_, ?_, ?_, ?_, ?_, ?_, ?_, ?_⟩
    · -- eval_inner
      intro st env e ft inf hst he
      cases e with
      | int n => exact GoodResC_ok ft inf hst he
      | str s => exact GoodResC_ok ft inf hst he
      | bool b => exact GoodResC_ok ft inf hst he
      | native nm => exact GoodResC_ok ft inf hst he
      | lambda c a b => exact GoodResC_ok ft inf hst he
      | tailCall f as => exact GoodResC_ok ft inf hst he
      | symbol s =>
        have hred : eval_inner (fuel + 1) st env (.symbol s) ft inf
            = (match st.get env s with
               | some v => (st, Res.ok v)
               | none => (st, Res.rerr (s ++ " is not defined"))) := rfl
        rw [hred]
        cases hg : st.get env s with
        | some v => simp only [hg]; exact GoodResC_ok ft inf hst (get_good hst hg)
        | none => simp only [hg]; exact GoodResC_rerr ft inf hst
      | list l =>
        cases l with
        | nil => exact GoodResC_ok ft inf hst he
        | cons head tl =>
          rw [noTC_list, noTCL_cons, Bool.and_eq_true] at he
          obtain ⟨hhead, htl⟩ := he
          cases head with
          | int n => rw [eval_red_call_head fuel st env (.int n) tl ft inf nofun]
                     exact ihX st env (.int n) tl ft inf hst hhead htl
          | str a => rw [eval_red_call_head fuel st env (.str a) tl ft inf nofun]
                     exact ihX st env (.str a) tl ft inf hst hhead htl
          | bool b => rw [eval_red_call_head fuel st env (.bool b) tl ft inf nofun]
                      exact ihX st env (.bool b) tl ft inf hst hhead htl
          | list l2 => rw [eval_red_call_head fuel st env (.list l2) tl ft inf nofun]
                       exact ihX st env (.list l2) tl ft inf hst hhead htl
          | lambda c an b => rw [eval_red_call_head fuel st env (.lambda c an b) tl ft inf nofun]
                             exact ihX st env (.lambda c an b) tl ft inf hst hhead htl
          | native nm => rw [eval_red_call_head fuel st env (.native nm) tl ft inf nofun]
                         exact ihX st env (.native nm) tl ft inf hst hhead htl
          | tailCall f as => rw [eval_red_call_head fuel st env (.tailCall f as) tl ft inf nofun]
                             exact ihX st env (.tailCall f as) tl ft inf hst hhead htl
          | symbol kw =>
            by_cases h1 : kw = "define"
            · subst h1
              rw [eval_red_define]
              refine withCar_goodC hst fun symv hsym => ?_
              cases hsm : symv.as_symbol with
              | none => simp only [hsm]; exact GoodResC_rerr ft inf hst
              | some name =>
                simp only [hsm]
                refine withCar_goodC hst fun ve hve => ?_
                have hv := ihE st env ve true inf hst (carV_noTC hve (cdrV_noTC htl))
                refine andThen_goodC (fun v => v.noTC = true) ft inf hv.1 hv.ofTrue.2 ?_
                intro st1 value hg1 hg2
                exact GoodResC_ok ft inf (define_good hg1 hg2) hg2
            by_cases h2 : kw = "set"
            · subst h2
              rw [eval_red_set]
              refine withCar_goodC hst fun symv hsym => ?_
              cases hsm : symv.as_symbol with
              | none => simp only [hsm]; exact GoodResC_rerr ft inf hst
              | some name =>
                simp only [hsm]
                refine withCar_goodC hst fun ve hve => ?_
                have hv := ihE st env ve true inf hst (carV_noTC hve (cdrV_noTC htl))
                refine andThen_goodC (fun v => v.noTC = true) ft inf hv.1 hv.ofTrue.2 ?_
                intro st1 value hg1 hg2
                cases hsv : st1.setVar env name value with
                | some st2 =>
                  simp only [hsv]
                  exact GoodResC_ok ft inf (setVar_good hg1 hg2 hsv) hg2
                | none => simp only [hsv]; exact GoodResC_rerr ft inf hg1
            by_cases h3 : kw = "defun"
            · subst h3
              rw [eval_red_defun]
              refine withCar_goodC hst fun symv hsym => ?_
              cases hsm : symv.as_symbol with
              | none => simp only [hsm]; exact GoodResC_rerr ft inf hst
              | some name =>
                simp only [hsm]
                refine withCar_goodC hst fun argsv hargsv => ?_
                refine withRes_goodC hst fun argnames hns => ?_
                have hlam : (Value.lambda env argnames (.list (cdrV (cdrV tl)))).noTC = true :=
                  cdrV_noTC (cdrV_noTC htl)
                exact GoodResC_ok ft inf (define_good hst hlam) rfl
            by_cases h4 : kw = "lambda"
            · subst h4
              rw [eval_red_lambda]
              refine withCar_goodC hst fun argsv hargsv => ?_
              refine withRes_goodC hst fun argnames hns => ?_
              exact GoodResC_ok ft inf hst (cdrV_noTC htl)
            by_cases h5 : kw = "quote"
            · subst h5
              rw [eval_red_quote]
              refine withCar_goodC hst fun v hv => ?_
              exact GoodResC_ok ft inf hst (carV_noTC hv htl)
            by_cases h6 : kw = "let"
            · subst h6
              rw [eval_red_let]
              have hx : goodStore (⟨st.frames ++ [⟨[], some env⟩]⟩ : Store) = true :=
                extend_good hst
              refine withCar_goodC hx fun declarations hdecl => ?_
              cases hdl : declarations.as_list with
              | none => simp only [hdl]; exact GoodResC_rerr ft inf hx
              | some decls =>
                simp only [hdl]
                have hdg : noTCL decls = true :=
                  as_list_noTC hdl (carV_noTC hdecl htl)
                refine andThen_goodC (fun _ => True) ft inf
                  (ihL _ _ decls inf hx hdg) (fun _ _ => trivial) ?_
                intro st1 u hg1 _
                exact ihB st1 _ (cdrV tl) ft inf hg1 (cdrV_noTC htl)
            by_cases h7 : kw = "begin"
            · subst h7
              rw [eval_red_begin]
              exact ihB st env tl ft inf hst htl
            by_cases h8 : kw = "cond"
            · subst h8
              rw [eval_red_cond]
              exact ihC st env tl ft inf hst htl
            by_cases h9 : kw = "if"
            · subst h9
              rw [eval_red_if]
              refine withCar_goodC hst fun c hc => ?_
              refine withCar_goodC hst fun t ht2 => ?_
              have hcv := ihE st env c true inf hst (carV_noTC hc htl)
              refine andThen_goodC (fun _ => True) ft inf hcv.1 (fun _ _ => trivial) ?_
              intro st1 v hg1 _
              by_cases htr : v.is_truthy = true
              · rw [if_pos htr]
                exact ihE st1 env t ft inf hg1 (carV_noTC ht2 (cdrV_noTC htl))
              · rw [if_neg htr]
                cases he2 : carV (cdrV (cdrV tl)) with
                | some el =>
                  simp only [he2]
                  exact ihE st1 env el ft inf hg1
                    (carV_noTC he2 (cdrV_noTC (cdrV_noTC htl)))
                | none => simp only [he2]; exact GoodResC_ok ft inf hg1 rfl
            by_cases h10 : kw = "and"
            · subst h10
              rw [eval_red_and]
              refine withCar_goodC hst fun a ha => ?_
              refine withCar_goodC hst fun b hb => ?_
              have hav := ihE st env a true inf hst (carV_noTC ha htl)
              refine andThen_goodC (fun _ => True) ft inf hav.1 (fun _ _ => trivial) ?_
              intro st1 va hg1 _
              by_cases htr : va.is_truthy = true
              · rw [if_pos htr]
                have hbv := ihE st1 env b true inf hg1 (carV_noTC hb (cdrV_noTC htl))
                refine andThen_goodC (fun _ => True) ft inf hbv.1 (fun _ _ => trivial) ?_
                intro st2 vb hg2 _
                exact GoodResC_ok ft inf hg2 rfl
              · rw [if_neg htr]
                exact GoodResC_ok ft inf hg1 rfl
            by_cases h11 : kw = "or"
            · subst h11
              rw [eval_red_or]
              refine withCar_goodC hst fun a ha => ?_
              refine withCar_goodC hst fun b hb => ?_
              have hav := ihE st env a true inf hst (carV_noTC ha htl)
              refine andThen_goodC (fun _ => True) ft inf hav.1 (fun _ _ => trivial) ?_
              intro st1 va hg1 _
              by_cases htr : va.is_truthy = true
              · rw [if_pos htr]
                exact GoodResC_ok ft inf hg1 rfl
              · rw [if_neg htr]
                have hbv := ihE st1 env b true inf hg1 (carV_noTC hb (cdrV_noTC htl))
                refine andThen_goodC (fun _ => True) ft inf hbv.1 (fun _ _ => trivial) ?_
                intro st2 vb hg2 _
                exact GoodResC_ok ft inf hg2 rfl
            rw [eval_red_call fuel st env kw tl ft inf h1 h2 h3 h4 h5 h6 h7 h8 h9 h10 h11]
            exact ihX st env (.symbol kw) tl ft inf hst hhead htl
    · -- eval_block_inner
      intro st env cl ft inf hst hcl
      cases cl with
      | nil => exact GoodResC_rerr ft inf hst
      | cons e rest =>
        cases rest with
        | nil =>
          rw [noTCL_cons, Bool.and_eq_true] at hcl
          exact ihE st env e ft inf hst hcl.1
        | cons e2 rest2 =>
          rw [noTCL_cons, Bool.and_eq_true] at hcl
          have hred : eval_block_inner (fuel + 1) st env (e :: e2 :: rest2) ft inf
              = andThen (eval_inner fuel st env e true inf) (fun st1 _ =>
                  eval_block_inner fuel st1 env (e2 :: rest2) ft inf) := rfl
          rw [hred]
          have hv := ihE st env e true inf hst hcl.1
          refine andThen_goodC (fun _ => True) ft inf hv.1 (fun _ _ => trivial) ?_
          intro st1 v hg1 _
          exact ihB st1 env (e2 :: rest2) ft inf hg1 hcl.2
    · -- eval_args
      intro st env exprs inf hst hexprs
      cases exprs with
      | nil => exact ⟨hst, fun l hl => by cases hl; rfl⟩
      | cons e rest =>
        rw [noTCL_cons, Bool.and_eq_true] at hexprs
        have hred : eval_args (fuel + 1) st env (e :: rest) inf
            = (match eval_inner fuel st env e true inf with
               | (st1, .ok v) =>
                 andThen (eval_args fuel st1 env rest inf) fun st2 l =>
                 (st2, Res.ok (Except.ok v :: l))
               | (st1, .rerr m) =>
                 andThen (eval_args fuel st1 env rest inf) fun st2 l =>
                 (st2, Res.ok (Except.error m :: l))
               | (st1, .crash) => (st1, Res.crash)
               | (st1, .timeout) => (st1, Res.timeout)) := rfl
        rw [hred]
        have hv := ihE st env e true inf hst hexprs.1
        rcases heval : eval_inner fuel st env e true inf with ⟨st1, r1⟩
        rw [heval] at hv
        cases r1 with
        | ok v =>
          have hvn : v.noTC = true := hv.ofTrue.2 v rfl
          have hra := ihA st1 env rest inf hv.1 hexprs.2
          show goodStore (andThen (eval_args fuel st1 env rest inf) fun st2 l =>
              (st2, Res.ok (Except.ok v :: l))).1 = true ∧
            ∀ l2, (andThen (eval_args fuel st1 env rest inf) fun st2 l =>
              (st2, Res.ok (Except.ok v :: l))).2 = Res.ok l2 → goodArgs l2 = true
          rcases hargs : eval_args fuel st1 env rest inf with ⟨st2, r2⟩
          rw [hargs] at hra
          cases r2 with
          | ok l =>
            simp only [andThen]
            refine ⟨hra.1, fun l2 hl2 => ?_⟩
            cases hl2
            rw [goodArgs, List.all_cons, Bool.and_eq_true]
            exact ⟨hvn, hra.2 l rfl⟩
          | rerr m => simp only [andThen]; exact ⟨hra.1, fun l2 hl2 => by cases hl2⟩
          | crash => simp only [andThen]; exact ⟨hra.1, fun l2 hl2 => by cases hl2⟩
          | timeout => simp only [andThen]; exact ⟨hra.1, fun l2 hl2 => by cases hl2⟩
        | rerr m =>
          have hra := ihA st1 env rest inf hv.1 hexprs.2
          show goodStore (andThen (eval_args fuel st1 env rest inf) fun st2 l =>
              (st2, Res.ok (Except.error m :: l))).1 = true ∧
            ∀ l2, (andThen (eval_args fuel st1 env rest inf) fun st2 l =>
              (st2, Res.ok (Except.error m :: l))).2 = Res.ok l2 → goodArgs l2 = true
          rcases hargs : eval_args fuel st1 env rest inf with ⟨st2, r2⟩
          rw [hargs] at hra
          cases r2 with
          | ok l =>
            simp only [andThen]
            refine ⟨hra.1, fun l2 hl2 => ?_⟩
            cases hl2
            rw [goodArgs, List.all_cons, Bool.and_eq_true]
            exact ⟨rfl, hra.2 l rfl⟩
          | rerr m2 => simp only [andThen]; exact ⟨hra.1, fun l2 hl2 => by cases hl2⟩
          | crash => simp only [andThen]; exact ⟨hra.1, fun l2 hl2 => by cases hl2⟩
          | timeout => simp only [andThen]; exact ⟨hra.1, fun l2 hl2 => by cases hl2⟩
        | crash => exact ⟨hv.1, fun l2 hl2 => by cases hl2⟩
        | timeout => exact ⟨hv.1, fun l2 hl2 => by cases hl2⟩
    · -- let_decls
      intro st letEnv decls inf hst hdecls
      cases decls with
      | nil => exact hst
      | cons d rest =>
        rw [noTCL_cons, Bool.and_eq_true] at hdecls
        have hred : let_decls (fuel + 1) st letEnv (d :: rest) inf
            = (match d.as_list with
               | none => (st, Res.rerr "Expected declaration clause")
               | some declCons =>
                 withCar st (carV declCons) fun symv =>
                 match symv.as_symbol with
                 | none => (st, Res.rerr "Expected symbol for let declaration")
                 | some name =>
                   withCar st (carV (cdrV declCons)) fun expr =>
                   andThen (eval_inner fuel st letEnv expr true inf) fun st1 result =>
                   let_decls fuel (st1.define letEnv name result) letEnv rest inf) := rfl
        rw [hred]
        cases hdl : d.as_list with
        | none => simp only [hdl]; exact hst
        | some declCons =>
          simp only [hdl]
          cases hcar : carV declCons with
          | none => simp only [withCar, hcar]; exact hst
          | some symv =>
            simp only [withCar, hcar]
            cases hsm : symv.as_symbol with
            | none => simp only [hsm]; exact hst
            | some name =>
              simp only [hsm]
              cases hc2 : carV (cdrV declCons) with
              | none => simp only [withCar, hc2]; exact hst
              | some expr =>
                simp only [withCar, hc2]
                have hexprn : expr.noTC = true :=
                  carV_noTC hc2 (cdrV_noTC (as_list_noTC hdl hdecls.1))
                have hv := ihE st letEnv expr true inf hst hexprn
                rcases hev : eval_inner fuel st letEnv expr true inf with ⟨st1, r1⟩
                rw [hev] at hv
                cases r1 with
                | ok v =>
                  simp only [andThen]
                  exact ihL (st1.define letEnv name v) letEnv rest inf
                    (define_good hv.1 (hv.ofTrue.2 v rfl)) hdecls.2
                | rerr m => simp only [andThen]; exact hv.1
                | crash => simp only [andThen]; exact hv.1
                | timeout => simp only [andThen]; exact hv.1
    · -- cond_clauses
      intro st env cls ft inf hst hcls
      cases cls with
      | nil => exact GoodResC_ok ft inf hst rfl
      | cons clause rest =>
        rw [noTCL_cons, Bool.and_eq_true] at hcls
        have hred : cond_clauses (fuel + 1) st env (clause :: rest) ft inf
            = (match clause.as_list with
               | none => (st, Res.rerr "Expected conditional clause")
               | some cl =>
                 withCar st (carV cl) fun condition =>
                 withCar st (carV (cdrV cl)) fun then_expr =>
                 andThen (eval_inner fuel st env condition true inf) fun st1 v =>
                 if v.is_truthy then eval_inner fuel st1 env then_expr ft inf
                 else cond_clauses fuel st1 env rest ft inf) := rfl
        rw [hred]
        cases hcl : clause.as_list with
        | none => simp only [hcl]; exact GoodResC_rerr ft inf hst
        | some cl =>
          simp only [hcl]
          have hcln : noTCL cl = true := as_list_noTC hcl hcls.1
          refine withCar_goodC hst fun condition hcond => ?_
          refine withCar_goodC hst fun then_expr hthen => ?_
          have hv := ihE st env condition true inf hst (carV_noTC hcond hcln)
          refine andThen_goodC (fun _ => True) ft inf hv.1 (fun _ _ => trivial) ?_
          intro st1 v hg1 _
          by_cases htr : v.is_truthy = true
          · rw [if_pos htr]
            exact ihE st1 env then_expr ft inf hg1 (carV_noTC hthen (cdrV_noTC hcln))
          · rw [if_neg htr]
            exact ihC st1 env rest ft inf hg1 hcls.2
    · -- call_expr
      intro st env head tlist ft inf hst hhead htl
      have hred : call_expr (fuel + 1) st env head tlist ft inf
          = andThen (eval_inner fuel st env head true inf) (fun st1 func =>
              andThen (eval_args fuel st1 env tlist inf) (fun st2 args =>
                if !ft && inf then
                  (st2, Res.ok (.tailCall func (args.filterMap Except.toOption)))
                else trampoline fuel env (call_function fuel st2 env func args))) := rfl
      rw [hred]
      have hfv := ihE st env head true inf hst hhead
      refine andThen_goodC (fun v => v.noTC = true) ft inf hfv.1 hfv.ofTrue.2 ?_
      intro st1 func hg1 hfunc
      have hargs := ihA st1 env tlist inf hg1 htl
      refine andThen_goodC (fun l => goodArgs l = true) ft inf hargs.1 hargs.2 ?_
      intro st2 args hg2 hargsgood
      cases ft with
      | false =>
        cases inf with
        | true =>
          rw [if_pos (by decide : ((!false && true) = true))]
          refine ⟨hg2, fun v hv => ?_⟩
          cases hv
          exact Or.inr ⟨rfl, rfl, func, args.filterMap Except.toOption, rfl, hfunc,
            goodArgs_filterMap hargsgood⟩
        | false =>
          rw [if_neg (by decide : ¬((!false && false) = true))]
          exact (ihT env _ (ihF st2 env func args hg2 hfunc hargsgood)).toC
      | true =>
        cases inf with
        | true =>
          rw [if_neg (by decide : ¬((!true && true) = true))]
          exact (ihT env _ (ihF st2 env func args hg2 hfunc hargsgood)).toC
        | false =>
          rw [if_neg (by decide : ¬((!true && false) = true))]
          exact (ihT env _ (ihF st2 env func args hg2 hfunc hargsgood)).toC
    · -- call_function
      intro st env f args hst hf hargs
      cases f with
      | native name =>
        have hred : call_function (fuel + 1) st env (.native name) args
            = (match sequenceArgs args with
               | .error e => (st, Res.rerr e)
               | .ok argsVec => apply_native st env name argsVec) := rfl
        rw [hred]
        cases hseq : sequenceArgs args with
        | error e => simp only [hseq]; exact GoodResC_rerr false true hst
        | ok vs => simp only [hseq]; exact (apply_native_good hst).toC
      | lambda closure argnames body =>
        have hred : call_function (fuel + 1) st env (.lambda closure argnames body) args
            = withRes st (bindArgs 0 argnames args) (fun _ =>
                match body.as_list with
                | some bodyClauses =>
                  eval_block_inner fuel ⟨st.frames ++ [⟨[], some closure⟩]⟩
                    st.frames.length bodyClauses false true
                | none => (⟨st.frames ++ [⟨[], some closure⟩]⟩, Res.crash)) := rfl
        rw [hred]
        refine withRes_goodC hst fun entries hb => ?_
        cases hbl : body.as_list with
        | some bodyClauses =>
          simp only [hbl]
          have hbn : noTCL bodyClauses = true := as_list_noTC hbl hf
          exact ihB _ _ bodyClauses false true (extend_good hst) hbn
        | none => simp only [hbl]; exact GoodResC_crash false true (extend_good hst)
      | int n => exact GoodResC_rerr false true hst
      | str s => exact GoodResC_rerr false true hst
      | bool b => exact GoodResC_rerr false true hst
      | symbol s => exact GoodResC_rerr false true hst
      | list l => exact GoodResC_rerr false true hst
      | tailCall f2 as2 => exact GoodResC_rerr false true hst
    · -- trampoline
      intro env p hp
      rcases p with ⟨st, r⟩
      cases r with
      | ok v =>
        cases v with
        | tailCall f as =>
          rcases hp.2 _ rfl with hg | ⟨_, _, f2, as2, heq, hf2, has2⟩
          · exact absurd hg (by simp [Value.noTC])
          · injection heq with hh1 hh2
            subst hh1
            subst hh2
            exact ihT env _ (ihF st env f (as.map Except.ok) hp.1 hf2
              (goodArgs_map_ok has2))
        | int n => exact ⟨hp.1, fun w hw => by cases hw; exact GoodResC_ok_not_tc hp nofun⟩
        | str s => exact ⟨hp.1, fun w hw => by cases hw; exact GoodResC_ok_not_tc hp nofun⟩
        | bool b => exact ⟨hp.1, fun w hw => by cases hw; exact GoodResC_ok_not_tc hp nofun⟩
        | symbol s => exact ⟨hp.1, fun w hw => by cases hw; exact GoodResC_ok_not_tc hp nofun⟩
        | list l => exact ⟨hp.1, fun w hw => by cases hw; exact GoodResC_ok_not_tc hp nofun⟩
        | lambda c a b => exact ⟨hp.1, fun w hw => by cases hw; exact GoodResC_ok_not_tc hp nofun⟩
        | native nm => exact ⟨hp.1, fun w hw => by cases hw; exact GoodResC_ok_not_tc hp nofun⟩
      | rerr m => exact ⟨hp.1, fun w hw => by cases hw⟩
      | crash => exact ⟨hp.1, fun w hw => by cases hw⟩
      | timeout => exact ⟨hp.1, fun w hw => by cases hw⟩


/-- C3: for every expression evaluated through the public entry point
`eval` (both context bits start false), over any environment whose
bindings are free of `tailCall` markers and any input expression free
of them (the reader cannot construct the internal marker), the returned
value is never a `DeferredCall`/`TailCall` marker: the marker is
produced only inside a function body and is always consumed by the
trampoline loop before a result reaches the caller. -/
theorem claim_C3_no_tailcall_escape :
    ∀ fuel st env e st2 v,
      goodStore st = true → Value.noTC e = true →
      eval fuel st env e = (st2, Res.ok v) →
      ∀ f as, v ≠ Value.tailCall f as := by
  intro fuel st env e st2 v hst he hev f as hcontra
  have h := (tc_invariant fuel).1 st env e false false hst he
  have hev2 : eval_inner fuel st env e false false = (st2, Res.ok v) := hev
  rw [hev2] at h
  rcases h.2 v rfl with hg | ⟨_, hinf, _⟩
  · rw [hcontra] at hg
    simp [Value.noTC] at hg
  · exact Bool.noConfusion hinf

/-- Witness for C3: the hypotheses hold of the standard store and the
literal `1`, whose evaluation returns `1`, and the theorem then says
that `1` is not a `tailCall` marker. -/
theorem claim_C3_no_tailcall_escape_witness :
    goodStore stdStore = true ∧ Value.noTC (Value.int 1) = true ∧
    ∀ f as, Value.int 1 ≠ Value.tailCall f as :=
  ⟨rfl, rfl, claim_C3_no_tailcall_escape 5 stdStore 0 (.int 1) stdStore (.int 1) rfl rfl rfl⟩

end RustLisp
